import Mathlib

/-!
Verification of the `generate-wiki-ts` pipeline of the hytale-packets
repository: a shallow embedding of `parser.ts` (tree-sitter based Java
protocol extraction) and `layout-analyzer.ts` (schema-validated layout
inference with bounded-concurrency batching), together with theorems about
the behaviour claimed in the specification.
-/

set_option autoImplicit false

namespace HytaleProto

/-! ## JavaScript primitives

The TypeScript code relies on a handful of JS library behaviours:
`String.prototype.includes`, `parseInt`, `Map` (insertion-ordered, `set`
replaces in place), and `Set` (insertion-ordered, deduplicating).  We model
them here.
-/

/-- Is `p` a prefix of the character list? -/
def isPrefixChars : List Char → List Char → Bool
  | [], _ => true
  | _ :: _, [] => false
  | p :: ps, c :: cs => p == c && isPrefixChars ps cs

/-- Does `pat` occur as a contiguous run starting at some position? -/
def strContainsAux (pat : List Char) : List Char → Bool
  | [] => isPrefixChars pat []
  | c :: cs => isPrefixChars pat (c :: cs) || strContainsAux pat cs

/-- JS `s.includes(pat)`: `pat` occurs as a contiguous substring of `s`. -/
def strContains (s pat : String) : Bool :=
  strContainsAux pat.data s.data

/-- JS whitespace (the ASCII part, which is all the sources contain). -/
def jsIsSpace (c : Char) : Bool :=
  c == ' ' || c == '\t' || c == '\n' || c == '\r'

/-- Digit value of a character in the given radix (10 or 16), `none` if the
character is not a digit of that radix. -/
def digitVal (radix : Nat) (c : Char) : Option Nat :=
  if '0' ≤ c ∧ c ≤ '9' then
    let v := c.toNat - 48
    if v < radix then some v else none
  else if radix == 16 ∧ 'a' ≤ c ∧ c ≤ 'f' then some (c.toNat - 87)
  else if radix == 16 ∧ 'A' ≤ c ∧ c ≤ 'F' then some (c.toNat - 55)
  else none

/-- JS `parseInt(s)` (no radix argument): skip leading whitespace, optional
sign, `0x`/`0X` switches to hexadecimal, then the longest prefix of digits;
`none` models `NaN`. -/
def jsParseInt (s : String) : Option Int :=
  let cs := s.data.dropWhile jsIsSpace
  let (neg, cs1) :=
    match cs with
    | '-' :: r => (true, r)
    | '+' :: r => (false, r)
    | _ => (false, cs)
  let (radix, cs2) :=
    match cs1 with
    | '0' :: 'x' :: r => (16, r)
    | '0' :: 'X' :: r => (16, r)
    | _ => (10, cs1)
  let ds := cs2.takeWhile (fun c => (digitVal radix c).isSome)
  if ds.isEmpty then none
  else
    let n := ds.foldl (fun acc c => acc * radix + ((digitVal radix c).getD 0)) 0
    some (if neg then -(n : Int) else (n : Int))

/-- JS `Map.has`. -/
def mapHas {α : Type} (m : List (String × α)) (k : String) : Bool :=
  m.any (fun kv => kv.1 == k)

/-- JS `Map.set`: replace in place if the key exists, else append. -/
def mapSet {α : Type} (m : List (String × α)) (k : String) (v : α) :
    List (String × α) :=
  if mapHas m k then m.map (fun kv => if kv.1 == k then (k, v) else kv)
  else m ++ [(k, v)]

/-- JS `Map.get` (as an `Option`). -/
def mapGet {α : Type} (m : List (String × α)) (k : String) : Option α :=
  (m.find? (fun kv => kv.1 == k)).map (·.2)

/-- JS `Set.add` on an insertion-ordered deduplicating set. -/
def setInsert (l : List String) (s : String) : List String :=
  if l.contains s then l else l ++ [s]

/-! ## The syntax-tree model

`parser.ts` works on tree-sitter syntax nodes.  A node carries its node
type, its source text (`getNodeText` is `content.substring(start, end)`, so
we store the text on the node), the children addressable by
`childForFieldName`, and the child list (`children` / `namedChildren`; the
code only ever filters these by named node types such as `modifiers` or
`formal_parameter`, for which the two lists agree). -/
inductive SNode : Type where
  | node (ty : String) (text : String)
      (fieldChildren : List (String × SNode)) (children : List SNode)

/-- Node type (`node.type`). -/
def SNode.ty : SNode → String
  | .node t _ _ _ => t

/-- Node text (`getNodeText(node, content)`). -/
def SNode.text : SNode → String
  | .node _ x _ _ => x

/-- Field children (for `childForFieldName`). -/
def SNode.fieldChildren : SNode → List (String × SNode)
  | .node _ _ f _ => f

/-- Child list (`node.children` / `node.namedChildren`). -/
def SNode.children : SNode → List SNode
  | .node _ _ _ c => c

/-- `node.childForFieldName(name)`. -/
def SNode.field (n : SNode) (name : String) : Option SNode :=
  (n.fieldChildren.find? (fun kv => kv.1 == name)).map (·.2)

/-- `getNodeText(node, content)` on a possibly-null node: tree-sitter
returns `''` for `null`. -/
def nodeText : Option SNode → String
  | none => ""
  | some n => n.text

mutual

/-- `traverseTree` visits the node, then recursively each child: the
pre-order listing of the tree. -/
def SNode.preorder : SNode → List SNode
  | .node t x f cs => .node t x f cs :: preorderList cs

/-- Pre-order listing of a list of sibling subtrees. -/
def preorderList : List SNode → List SNode
  | [] => []
  | c :: cs => c.preorder ++ preorderList cs

end

mutual

/-- Pre-order listing paired with the name of the nearest enclosing
`class_declaration` (what `findParentClass` followed by
`getNodeText(.childForFieldName('name'))` computes for each visited node);
`encl` is that name for the root of the traversal. -/
def SNode.preorderC (encl : String) : SNode → List (String × SNode)
  | .node t x f cs =>
    (encl, .node t x f cs) ::
      preorderListC
        (if t == "class_declaration" then
          nodeText ((SNode.node t x f cs).field "name")
        else encl)
        cs

/-- Pre-order listing with enclosing-class names of sibling subtrees. -/
def preorderListC (encl : String) : List SNode → List (String × SNode)
  | [] => []
  | c :: cs => c.preorderC encl ++ preorderListC encl cs

end

/-- Text of the `modifiers` child, `''` when there is none (the pattern
`node.children.find(c => c.type === 'modifiers')` of the source). -/
def modifiersText (n : SNode) : String :=
  match n.children.find? (fun c => c.ty == "modifiers") with
  | some m => m.text
  | none => ""

/-! ## Data model (`types.ts`) -/

/-- `EnumValue` of `types.ts`. -/
structure EnumValue where
  name : String
  value : Int
deriving Repr, DecidableEq

/-- `EnumInfo` of `types.ts` (`package` is rendered as `pkg`). -/
structure EnumInfo where
  name : String
  pkg : String
  category : String
  sourcePath : String
  values : List EnumValue
deriving Repr, DecidableEq

/-- `FieldInfo` of `types.ts`. -/
structure FieldInfo where
  name : String
  javaType : String
  nullable : Bool
  defaultValue : Option String := none
  maxLength : Option Int := none
  wireOffset : Option Int := none
  wireSize : Option Int := none
  isVariable : Bool
  encoding : String
deriving Repr, DecidableEq

/-- `DataClassInfo` of `types.ts`. -/
structure DataClassInfo where
  name : String
  pkg : String
  category : String
  sourcePath : String
  fields : List FieldInfo
  imports : List String
deriving Repr, DecidableEq

/-- `PacketInfo` of `types.ts`: note that `packetId` is optional with no
default, while the other numeric constants are initialised to `0` and the
compression flag to `false` in `extractPacketInfo`. -/
structure PacketInfo where
  name : String
  pkg : String
  category : String
  packetId : Option Int := none
  isCompressed : Bool
  nullableBitFieldSize : Int
  fixedBlockSize : Int
  variableFieldCount : Int
  variableBlockStart : Int
  maxSize : Int
  fields : List FieldInfo
  imports : List String
  isEnum : Bool
  isDataClass : Bool
  deserializeContext : Option String := none
deriving Repr, DecidableEq

/-! ## Regex helpers for `extractPackage` / `extractImports`

The two regexes `/package\s+([\w.]+);/` and `/import\s+([\w.]+);/g` are
matched by literal keyword, one-or-more whitespace, one-or-more word/dot
characters, then a semicolon; the character classes are disjoint so greedy
matching is exact. -/

/-- JS `\w`: `[A-Za-z0-9_]`. -/
def jsWordChar (c : Char) : Bool :=
  ('a' ≤ c ∧ c ≤ 'z') || ('A' ≤ c ∧ c ≤ 'Z') || ('0' ≤ c ∧ c ≤ '9') || c == '_'

/-- The class `[\w.]`. -/
def pkgChar (c : Char) : Bool :=
  jsWordChar c || c == '.'

/-- Consume a literal keyword prefix. -/
def dropLit : List Char → List Char → Option (List Char)
  | [], cs => some cs
  | _ :: _, [] => none
  | k :: ks, c :: cs => if c == k then dropLit ks cs else none

/-- Match `kw\s+([\w.]+);` at the start of `cs`; on success return the
capture and the remainder after the semicolon. -/
def matchKwCapture (kw cs : List Char) : Option (List Char × List Char) :=
  match dropLit kw cs with
  | none => none
  | some cs1 =>
    if (cs1.takeWhile jsIsSpace).isEmpty then none
    else if ((cs1.dropWhile jsIsSpace).takeWhile pkgChar).isEmpty then none
    else
      match (cs1.dropWhile jsIsSpace).dropWhile pkgChar with
      | ';' :: rest => some ((cs1.dropWhile jsIsSpace).takeWhile pkgChar, rest)
      | _ => none

/-- All non-overlapping matches of `kw\s+([\w.]+);` (JS `matchAll`):
scanning advances one position on failure and resumes after the semicolon
on success.  `fuel` bounds the number of steps; every step strictly shortens
the character list, so `cs.length` steps always suffice. -/
def findAllAux (kw : List Char) : Nat → List Char → List String
  | 0, _ => []
  | _ + 1, [] => []
  | fuel + 1, c :: cs =>
    match matchKwCapture kw (c :: cs) with
    | some (cap, rest) => String.mk cap :: findAllAux kw fuel rest
    | none => findAllAux kw fuel cs

/-- All non-overlapping matches of the keyword regex over a string. -/
def findAllCaptures (kw cs : List Char) : List String :=
  findAllAux kw cs.length cs

/-- `extractPackage`: the first capture of `/package\s+([\w.]+);/`, `''`
when there is no match. -/
def extractPackage (content : String) : String :=
  match (findAllCaptures "package".data content.data).head? with
  | some s => s
  | none => ""

/-- `extractImports`: all captures of `/import\s+([\w.]+);/g`. -/
def extractImports (content : String) : List String :=
  findAllCaptures "import".data content.data

/-! ## Enum extraction (`extractEnumInfo`) -/

/-- One `traverseTree` callback step of `extractEnumInfo`: on an
`enum_constant` with a (truthy) name, the value is the running index
`values.length` unless the first argument of the constant parses as an
integer. -/
def enumConstStep (acc : List EnumValue) (child : SNode) : List EnumValue :=
  if child.ty == "enum_constant" then
    let name := nodeText (child.field "name")
    if name != "" then
      let dflt : Int := acc.length
      let value :=
        match child.field "arguments" with
        | some args =>
          match args.children.head? with
          | some firstArg =>
            match jsParseInt firstArg.text with
            | some v => v
            | none => dflt
          | none => dflt
        | none => dflt
      acc ++ [⟨name, value⟩]
    else acc
  else acc

/-- The `values` array built by `extractEnumInfo` from an enum body. -/
def extractEnumValues (body : SNode) : List EnumValue :=
  body.preorder.foldl enumConstStep []

/-- `extractEnumInfo`. -/
def extractEnumInfo (node : SNode) (content category relPath : String) :
    Option EnumInfo :=
  let enumName := nodeText (node.field "name")
  if enumName == "" then none
  else
    some
      { name := enumName
        pkg := extractPackage content
        category
        sourcePath := relPath
        values :=
          match node.field "body" with
          | some b => extractEnumValues b
          | none => [] }

/-! ## Field extraction (`extractFieldInfo`, `extractFields`,
`extractFieldsFromConstructor`) -/

/-- `extractFieldInfo` on a `field_declaration` node. -/
def extractFieldInfo (node : SNode) : Option FieldInfo :=
  match node.field "type",
      node.children.find? (fun c => c.ty == "variable_declarator") with
  | some typeNode, some declarator =>
    let name := nodeText (declarator.field "name")
    let javaType := typeNode.text
    if name == "" || javaType == "" then none
    else
      some
        { name
          javaType
          nullable := strContains (modifiersText node) "@Nullable"
          isVariable := false
          encoding := "" }
  | _, _ => none

/-- The fallback branch of `extractFields`: non-static field declarations in
traversal order. -/
def fallbackFields (body : SNode) : List FieldInfo :=
  body.preorder.foldl
    (fun acc child =>
      if child.ty == "field_declaration" then
        if strContains (modifiersText child) "static" then acc
        else
          match extractFieldInfo child with
          | some fi => acc ++ [fi]
          | none => acc
      else acc)
    []

/-- Parameter count of a constructor: the `formal_parameter` and
`spread_parameter` children of its `parameters` node. -/
def ctorParamCount (ctor : SNode) : Nat :=
  match ctor.field "parameters" with
  | none => 0
  | some params =>
    (params.children.filter
      (fun p => p.ty == "formal_parameter" || p.ty == "spread_parameter")).length

/-- The copy-constructor test of `extractFieldsFromConstructor`: the first
`formal_parameter` exists and its declared type equals the enclosing class's
name. -/
def isCopyParams (encl : String) (ctor : SNode) : Bool :=
  match ctor.field "parameters" with
  | none => false
  | some params =>
    match params.children.find? (fun p => p.ty == "formal_parameter") with
    | none => false
    | some firstParam => nodeText (firstParam.field "type") == encl

/-- Selection state of `extractFieldsFromConstructor` (`bestConstructor`,
`maxParams`). -/
structure CtorSel where
  best : Option SNode
  maxParams : Nat

/-- One `traverseTree` callback step of the constructor search. -/
def ctorStep (st : CtorSel) (ep : String × SNode) : CtorSel :=
  let child := ep.2
  if child.ty == "constructor_declaration" then
    match child.field "parameters" with
    | none => st
    | some _ =>
      let pc := ctorParamCount child
      if pc == 1 && isCopyParams ep.1 child then st
      else if pc > st.maxParams then ⟨some child, pc⟩
      else st
  else st

/-- One parameter of the selected constructor, as a `FieldInfo`
(`formal_parameter` with both a type and a name node). -/
def paramField (p : SNode) : Option FieldInfo :=
  if p.ty == "formal_parameter" then
    match p.field "type", p.field "name" with
    | some typeNode, some nameNode =>
      some
        { name := nameNode.text
          javaType := typeNode.text
          nullable := strContains (modifiersText p) "@Nullable"
          isVariable := false
          encoding := "" }
    | _, _ => none
  else none

/-- The field list read off a constructor's parameter list. -/
def ctorFieldList (ctor : SNode) : List FieldInfo :=
  match ctor.field "parameters" with
  | none => []
  | some params => params.children.filterMap paramField

/-- `extractFieldsFromConstructor`: find the constructor with the most
parameters (skipping single-parameter copy constructors), then read its
parameter list.  `encl` is the name of the class whose body this is (what
`findParentClass` resolves for constructors directly inside the body). -/
def extractFieldsFromConstructor (encl : String) (body : SNode) :
    List FieldInfo :=
  let st := (body.preorderC encl).foldl ctorStep ⟨none, 0⟩
  match st.best with
  | none => []
  | some best => ctorFieldList best

/-- `extractFields`: constructor-based extraction first, field declarations
as the fallback when it yields nothing. -/
def extractFields (node : SNode) : List FieldInfo :=
  match node.field "body" with
  | none => []
  | some body =>
    let cf := extractFieldsFromConstructor (nodeText (node.field "name")) body
    if cf.length > 0 then cf else fallbackFields body

/-! ## Constant extraction (`extractConstants`) -/

/-- The assignment `extractConstants` performs for one recognised constant
declaration `name = value`: `IS_COMPRESSED` is compared against the string
`'true'`; the six numeric constants go through `parseInt` and are ignored
when it yields `NaN`; unknown names change nothing. -/
def applyConstant (p : PacketInfo) (name value : String) : PacketInfo :=
  if name == "IS_COMPRESSED" then { p with isCompressed := value == "true" }
  else
    match jsParseInt value with
    | none => p
    | some v =>
      if name == "PACKET_ID" then { p with packetId := some v }
      else if name == "NULLABLE_BIT_FIELD_SIZE" then
        { p with nullableBitFieldSize := v }
      else if name == "FIXED_BLOCK_SIZE" then { p with fixedBlockSize := v }
      else if name == "VARIABLE_FIELD_COUNT" then
        { p with variableFieldCount := v }
      else if name == "VARIABLE_BLOCK_START" then
        { p with variableBlockStart := v }
      else if name == "MAX_SIZE" then { p with maxSize := v }
      else p

/-- One `traverseTree` callback step of `extractConstants`: a
`field_declaration` whose modifiers contain both `static` and `final`, with
a declarator carrying truthy name and value texts. -/
def constantsStep (p : PacketInfo) (child : SNode) : PacketInfo :=
  if child.ty == "field_declaration" then
    let modText := modifiersText child
    if strContains modText "static" && strContains modText "final" then
      match child.children.find? (fun c => c.ty == "variable_declarator") with
      | none => p
      | some declarator =>
        let name := nodeText (declarator.field "name")
        let value := nodeText (declarator.field "value")
        if name != "" && value != "" then applyConstant p name value else p
    else p
  else p

/-- `extractConstants` over the class body. -/
def extractConstants (node : SNode) (p : PacketInfo) : PacketInfo :=
  match node.field "body" with
  | none => p
  | some body => body.preorder.foldl constantsStep p

/-! ## Context bundling (`extractLayout`, `extractDeserializeContext`) -/

/-- `getMethodName`: the `name` field of a `method_invocation`, else the
`field` of a `field_access` receiver; `''` models the falsy results. -/
def getMethodName (node : SNode) : String :=
  match node.field "name" with
  | some nameNode => nameNode.text
  | none =>
    match node.field "object" with
    | some objectNode =>
      if objectNode.ty == "field_access" then
        nodeText (objectNode.field "field")
      else ""
    | none => ""

/-- The seven recognised layout constant names. -/
def relevantNames : List String :=
  ["PACKET_ID", "IS_COMPRESSED", "NULLABLE_BIT_FIELD_SIZE",
   "FIXED_BLOCK_SIZE", "VARIABLE_FIELD_COUNT", "VARIABLE_BLOCK_START",
   "MAX_SIZE"]

/-- `extractRelevantConstants`: verbatim (trimmed) text of the static-final
declarations of the seven recognised constants. -/
def extractRelevantConstants (body : SNode) : List String :=
  body.preorder.foldl
    (fun acc child =>
      if child.ty == "field_declaration" then
        let modText := modifiersText child
        if strContains modText "static" && strContains modText "final" then
          match child.children.find?
              (fun c => c.ty == "variable_declarator") with
          | some declarator =>
            let name := nodeText (declarator.field "name")
            if name != "" && relevantNames.contains name then
              acc ++ [child.text.trim]
            else acc
          | none => acc
        else acc
      else acc)
    []

/-- The set of method names invoked inside the deserialize method
(insertion-ordered, deduplicated). -/
def calledMethodNames (deserMethod : SNode) : List String :=
  deserMethod.preorder.foldl
    (fun acc node =>
      if node.ty == "method_invocation" then
        let m := getMethodName node
        if m != "" then setInsert acc m else acc
      else acc)
    []

/-- `extractStaticMethods`: text of the in-class static methods that the
deserialize method calls, plus the two always-included helper names. -/
def extractStaticMethods (body deserMethod : SNode) : List String :=
  let called := calledMethodNames deserMethod
  body.preorder.foldl
    (fun acc child =>
      if child.ty == "method_declaration" then
        if strContains (modifiersText child) "static" then
          let methodName := nodeText (child.field "name")
          if methodName != "" &&
              (called.contains methodName ||
                methodName == "computeBytesConsumed" ||
                methodName == "validateStructure") then
            acc ++ [child.text]
          else acc
        else acc
      else acc)
    []

/-- The `referencedMethods` / `referencedTypes` sets collected from the
deserialize method (`object.method` pairs, and receivers of
`deserialize` / `fromValue` calls). -/
def collectRefs (deserMethod : SNode) : List String × List String :=
  deserMethod.preorder.foldl
    (fun acc node =>
      if node.ty == "method_invocation" then
        let m := getMethodName node
        if m != "" then
          let acc1 :=
            match node.field "object" with
            | some objectNode =>
              (setInsert acc.1 (objectNode.text ++ "." ++ m), acc.2)
            | none => acc
          if m == "deserialize" || m == "fromValue" then
            match node.field "object" with
            | some objectNode => (acc1.1, setInsert acc1.2 objectNode.text)
            | none => acc1
          else acc1
        else acc
      else acc)
    ([], [])

/-- The fixed reference glossary appended to every context bundle. -/
def contextGlossary : List String :=
  ["// === COMMON PACKETIO METHODS REFERENCE ===",
   "// PacketIO.readFixedAsciiString(buf, offset, length) - reads fixed-length ASCII string",
   "// PacketIO.readVarString(buf, pos, charset) - reads variable-length string with VarInt prefix",
   "// PacketIO.readVarAsciiString(buf, pos, maxLen) - reads variable ASCII string",
   "// PacketIO.readUUID(buf, offset) - reads 16-byte UUID",
   "// VarInt.peek(buf, pos) - reads VarInt value without advancing",
   "// VarInt.length(buf, pos) - gets byte length of VarInt at position",
   "// buf.getByte(offset) - reads 1 byte",
   "// buf.getIntLE(offset) - reads 4-byte little-endian int",
   "// buf.getLongLE(offset) - reads 8-byte little-endian long",
   "// buf.getShortLE(offset) - reads 2-byte little-endian short"]

/-- `extractDeserializeContext`: the labeled context bundle text. -/
def extractDeserializeContext (classNode deserMethod : SNode)
    (packet : PacketInfo) : String :=
  let className := nodeText (classNode.field "name")
  let header :=
    ["// Packet: " ++ className, "// Package: " ++ packet.pkg, ""]
  let constParts :=
    match classNode.field "body" with
    | some body =>
      let cs := extractRelevantConstants body
      if cs.length > 0 then ["// === CONSTANTS ==="] ++ cs ++ [""] else []
    | none => []
  let fieldParts :=
    ["// === FIELDS ==="] ++
      packet.fields.map
        (fun f =>
          (if f.nullable then "@Nullable " else "@Nonnull ") ++
            f.javaType ++ " " ++ f.name ++ ";") ++ [""]
  let deserParts := ["// === DESERIALIZE METHOD ===", deserMethod.text, ""]
  let refs := collectRefs deserMethod
  let staticParts :=
    match classNode.field "body" with
    | some body =>
      let sm := extractStaticMethods body deserMethod
      if sm.length > 0 then
        ["// === STATIC HELPER METHODS (same class) ==="] ++ sm ++ [""]
      else []
    | none => []
  let extParts :=
    if refs.1.length > 0 || refs.2.length > 0 then
      ["// === EXTERNAL DEPENDENCIES ==="] ++
        (if refs.1.length > 0 then
          ["// Methods used: " ++ String.intercalate ", " refs.1]
        else []) ++
        (if refs.2.length > 0 then
          ["// Types referenced: " ++ String.intercalate ", " refs.2]
        else []) ++ [""]
    else []
  String.intercalate "\n"
    (header ++ constParts ++ fieldParts ++ deserParts ++ staticParts ++
      extParts ++ contextGlossary)

/-- The deserialize-method search of `extractLayout`: the last
`method_declaration` named `deserialize` in traversal order. -/
def findDeserializeMethod (body : SNode) : Option SNode :=
  body.preorder.foldl
    (fun acc child =>
      if child.ty == "method_declaration" &&
          nodeText (child.field "name") == "deserialize" then
        some child
      else acc)
    none

/-- `extractLayout`: attach the context bundle when a deserialize method
exists; otherwise the packet carries no bundle. -/
def extractLayout (node : SNode) (packet : PacketInfo) : PacketInfo :=
  match node.field "body" with
  | none => packet
  | some body =>
    match findDeserializeMethod body with
    | none => packet
    | some dm =>
      { packet with
          deserializeContext := some (extractDeserializeContext node dm packet) }

/-! ## Packet and entity parsing (tree level)

File reading, decompile layout and tree-sitter parsing are external; the
embeddings below start from the parsed root node, the file content and the
relative directory path, exactly where the source's own logic begins. -/

/-- `relPath.replace(/\\/g, '/')`. -/
def normalizeSep (relPath : String) : String :=
  String.mk (relPath.data.map (fun c => if c == '\\' then '/' else c))

/-- Category of an entity file: `relPath.replace(/\\/g,'/') || 'root'`. -/
def entityCategory (relPath : String) : String :=
  if normalizeSep relPath == "" then "root" else normalizeSep relPath

/-- Category of a packet file: `relPath.replace(/\\/g,'/') || 'uncategorized'`. -/
def packetCategory (relPath : String) : String :=
  if normalizeSep relPath == "" then "uncategorized" else normalizeSep relPath

/-- `extractPacketInfo`: defaults, then constants, then fields, then the
layout context. -/
def extractPacketInfo (node : SNode) (content category : String) :
    PacketInfo :=
  let className := nodeText (node.field "name")
  let p0 : PacketInfo :=
    { name := if className == "" then "Unknown" else className
      pkg := extractPackage content
      category
      isCompressed := false
      nullableBitFieldSize := 0
      fixedBlockSize := 0
      variableFieldCount := 0
      variableBlockStart := 0
      maxSize := 0
      fields := []
      imports := extractImports content
      isEnum := false
      isDataClass := false }
  let p1 := extractConstants node p0
  let p2 := { p1 with fields := extractFields node }
  extractLayout node p2

/-- `extractDataClassInfo`. -/
def extractDataClassInfo (node : SNode) (content category relPath : String) :
    Option DataClassInfo :=
  let className := nodeText (node.field "name")
  if className == "" then none
  else
    some
      { name := className
        pkg := extractPackage content
        category
        sourcePath := relPath
        fields :=
          match node.field "body" with
          | some body =>
            body.preorder.foldl
              (fun acc child =>
                if child.ty == "field_declaration" then
                  match extractFieldInfo child with
                  | some fi => acc ++ [fi]
                  | none => acc
                else acc)
              []
          | none => []
        imports := extractImports content }

/-- The traversal core of `parsePacketFile`: every named
`class_declaration` overwrites `packetInfo`, so the last one visited wins. -/
def parsePacketTree (root : SNode) (content relPath : String) :
    Option PacketInfo :=
  root.preorder.foldl
    (fun acc node =>
      if node.ty == "class_declaration" then
        if nodeText (node.field "name") != "" then
          some (extractPacketInfo node content (packetCategory relPath))
        else acc
      else acc)
    none

/-- The traversal core of `parseEntityFile`: enums are registered
unconditionally, data classes only when their name does not contain
`Packet`. -/
def parseEntityTree (root : SNode) (content relPath : String)
    (st : List (String × EnumInfo) × List (String × DataClassInfo)) :
    List (String × EnumInfo) × List (String × DataClassInfo) :=
  root.preorder.foldl
    (fun st node =>
      if node.ty == "enum_declaration" then
        match extractEnumInfo node content (entityCategory relPath) relPath with
        | some ei => (mapSet st.1 ei.name ei, st.2)
        | none => st
      else if node.ty == "class_declaration" then
        match extractDataClassInfo node content (entityCategory relPath)
            relPath with
        | some dc =>
          if !(strContains dc.name "Packet") then (st.1, mapSet st.2 dc.name dc)
          else st
        | none => st
      else st)
    st

/-- The traversal core of `parseEnumsFromFile` (the secondary pass over the
packets directory): an enum is inserted only when its name is not yet
registered. -/
def parseEnumsTree (root : SNode) (content relPath : String)
    (enums : List (String × EnumInfo)) : List (String × EnumInfo) :=
  root.preorder.foldl
    (fun m node =>
      if node.ty == "enum_declaration" then
        match extractEnumInfo node content (entityCategory relPath) relPath with
        | some ei => if !(mapHas m ei.name) then mapSet m ei.name ei else m
        | none => m
      else m)
    enums

/-! ## Layout analysis (`layout-analyzer.ts`)

The Zod schemas `FieldLayoutSchema` / `LayoutAnalysisSchema` admit exactly
the values of the `Raw…` structures below (`z.number().int()` is an `Int`,
`.nullable()` an `Option`); a validated response is by construction a
`RawLayoutAnalysis`.  The inference request itself (`generateText`) is an
external oracle, modelled as a function `infer` producing either an error
(a thrown/rejected request), no structured output, or a validated
response. -/

/-- A field record of the validated response (`FieldLayoutSchema`). -/
structure RawFieldLayout where
  name : String
  wireOffset : Int
  wireSize : Int
  encoding : String
  isVariable : Bool
  nullBit : Option Int
  notes : Option String
deriving Repr, DecidableEq

/-- An entry of `nullBitMappings` (`NullBitMappingEntry`). -/
structure RawNullBitEntry where
  bit : String
  fieldName : String
deriving Repr, DecidableEq

/-- The validated response (`LayoutAnalysisSchema`). -/
structure RawLayoutAnalysis where
  fields : List RawFieldLayout
  totalFixedSize : Int
  hasVariableSection : Bool
  variableSectionStart : Option Int
  nullBitMappings : List RawNullBitEntry
  notes : Option String
deriving Repr, DecidableEq

/-- `FieldLayoutInfo` of `types.ts`. -/
structure FieldLayoutInfo where
  name : String
  wireOffset : Option Int
  wireSize : Option Int
  encoding : String
  isVariable : Bool
  nullBit : Option Int
  notes : Option String
deriving Repr, DecidableEq

/-- `LayoutAnalysis` of `types.ts`; `nullBitMapping` is a JS record keyed by
the bit string, modelled as an insertion-ordered map. -/
structure LayoutAnalysis where
  packetName : String
  fields : List FieldLayoutInfo
  totalFixedSize : Int
  hasVariableSection : Bool
  variableSectionStart : Option Int
  nullBitMapping : Option (List (String × String))
  notes : Option String
deriving Repr, DecidableEq

/-- `normalizeLayout`: translate the validated response into the internal
type, turning `null` markers into absence and folding the `(bit, fieldName)`
list into a bit-keyed record. -/
def normalizeLayout (parsed : RawLayoutAnalysis) (packet : PacketInfo) :
    LayoutAnalysis :=
  let fields := parsed.fields.map
    (fun f =>
      { name := f.name
        wireOffset := some f.wireOffset
        wireSize := some f.wireSize
        encoding := f.encoding
        isVariable := f.isVariable
        nullBit := f.nullBit
        notes := f.notes : FieldLayoutInfo })
  let nullBitMapping :=
    if parsed.nullBitMappings.length > 0 then
      some (parsed.nullBitMappings.foldl
        (fun m e => mapSet m e.bit e.fieldName) [])
    else none
  { packetName := packet.name
    fields
    totalFixedSize := parsed.totalFixedSize
    hasVariableSection := parsed.hasVariableSection
    variableSectionStart := parsed.variableSectionStart
    nullBitMapping
    notes := parsed.notes }

/-- The inference oracle: one `generateText` request for one packet.
`Except.error` models a thrown error or rejected request, `Except.ok none` a
response with no structured output (`!result.output`). -/
abbrev InferOracle : Type :=
  PacketInfo → Except String (Option RawLayoutAnalysis)

/-- JS truthiness of `packet.deserializeContext`: both `undefined` and the
empty string are falsy. -/
def hasDeserializeContext (packet : PacketInfo) : Bool :=
  match packet.deserializeContext with
  | none => false
  | some s => s != ""

/-- `analyzePacket`: reject packets without a context bundle, issue the
single request, catch every error, and normalize a structured output.  The
`Except` layer records that the method itself never rejects. -/
def analyzePacket (infer : InferOracle) (packet : PacketInfo) :
    Except String (Option LayoutAnalysis) :=
  if !(hasDeserializeContext packet) then Except.ok none
  else
    match infer packet with
    | Except.error _ => Except.ok none
    | Except.ok none => Except.ok none
    | Except.ok (some raw) => Except.ok (some (normalizeLayout raw packet))

/-- The value `analyzePacket` resolves with. -/
def analyzePacketOpt (infer : InferOracle) (packet : PacketInfo) :
    Option LayoutAnalysis :=
  if !(hasDeserializeContext packet) then none
  else
    match infer packet with
    | Except.error _ => none
    | Except.ok none => none
    | Except.ok (some raw) => some (normalizeLayout raw packet)

/-- The number of inference requests `analyzePacket` issues for one packet:
none when the packet has no bundle, exactly one otherwise (there is no
retry path). -/
def inferRequestCount (packet : PacketInfo) : Nat :=
  if !(hasDeserializeContext packet) then 0 else 1

/-- `options.maxConcurrency || 5` of the `LayoutAnalyzer` constructor. -/
def effectiveConcurrency (opt : Option Nat) : Nat :=
  match opt with
  | none => 5
  | some 0 => 5
  | some k => k

/-- `queue.splice(0, k + 1)` batching: split the queue into groups of at
most `k + 1` elements (`analyzePackets` calls this with
`maxConcurrency - 1`; the loop does not terminate for a non-positive
concurrency, which the constructor's `|| 5` rules out). -/
def chunksAux {α : Type} (k : Nat) : List α → List (List α)
  | [] => []
  | a :: l => (a :: l.take k) :: chunksAux k (l.drop k)
termination_by l => l.length
decreasing_by
  simp only [List.length_drop, List.length_cons]
  omega

/-- The filtered queue: `packets.filter(p => p.deserializeContext)`. -/
def analyzeQueue (packets : List PacketInfo) : List PacketInfo :=
  packets.filter (fun p => hasDeserializeContext p)

/-- One batch through `Promise.all`: the per-packet continuations produce
`(name, layout-or-absent)` pairs; a rejection of any member would reject the
whole batch. -/
def processBatch (infer : InferOracle) (batch : List PacketInfo) :
    Except String (List (String × Option LayoutAnalysis)) :=
  batch.mapM
    (fun p => (analyzePacket infer p).map (fun l => (p.name, l)))

/-- Merging one batch's results into the output map: only `some` layouts
are inserted. -/
def mergeBatch (results : List (String × LayoutAnalysis))
    (batchResults : List (String × Option LayoutAnalysis)) :
    List (String × LayoutAnalysis) :=
  batchResults.foldl
    (fun m nl =>
      match nl.2 with
      | some l => mapSet m nl.1 l
      | none => m)
    results

/-- The batch loop of `analyzePackets`. -/
def analyzePacketsGo (infer : InferOracle) :
    List (List PacketInfo) → List (String × LayoutAnalysis) →
    Except String (List (String × LayoutAnalysis))
  | [], results => Except.ok results
  | b :: bs, results =>
    match processBatch infer b with
    | Except.error e => Except.error e
    | Except.ok br => analyzePacketsGo infer bs (mergeBatch results br)

/-- `analyzePackets`: filter the queue, drain it in groups of `maxConc`,
accumulate successful results into a name-keyed map. -/
def analyzePackets (infer : InferOracle) (maxConc : Nat)
    (packets : List PacketInfo) :
    Except String (List (String × LayoutAnalysis)) :=
  analyzePacketsGo infer (chunksAux (maxConc - 1) (analyzeQueue packets)) []

/-! ## Map lemmas -/

theorem mapHas_iff {α : Type} (m : List (String × α)) (k : String) :
    mapHas m k = true ↔ ∃ kv ∈ m, kv.1 = k := by
  unfold mapHas
  simp [List.any_eq_true]

theorem find?_map_replace_self {α : Type} (k : String) (v : α) :
    ∀ t : List (String × α), mapHas t k = true →
      (t.map (fun kv => if kv.1 == k then (k, v) else kv)).find?
        (fun kv => kv.1 == k) = some (k, v)
  | [], h => by simp [mapHas] at h
  | kv :: t, h => by
    by_cases hk : kv.1 = k
    · simp [List.find?_cons, hk]
    · have ht : mapHas t k = true := by
        unfold mapHas at h ⊢
        simp only [List.any_cons, Bool.or_eq_true, beq_iff_eq] at h
        rcases h with h | h
        · exact absurd h hk
        · exact h
      simp only [List.map_cons]
      rw [if_neg (by simp [hk])]
      rw [List.find?_cons_of_neg _ (by simp [hk])]
      exact find?_map_replace_self k v t ht

theorem find?_map_replace_ne {α : Type} (k k' : String) (v : α)
    (hne : k' ≠ k) :
    ∀ t : List (String × α),
      (t.map (fun kv => if kv.1 == k then (k, v) else kv)).find?
        (fun kv => kv.1 == k') = t.find? (fun kv => kv.1 == k')
  | [] => rfl
  | kv :: t => by
    simp only [List.map_cons]
    by_cases hk : kv.1 = k
    · rw [if_pos (by simp [hk])]
      rw [List.find?_cons_of_neg _ (by simp [Ne.symm hne]),
        List.find?_cons_of_neg _ (by simp [hk, Ne.symm hne])]
      exact find?_map_replace_ne k k' v hne t
    · rw [if_neg (by simp [hk])]
      by_cases hk' : kv.1 = k'
      · rw [List.find?_cons_of_pos _ (by simp [hk']),
          List.find?_cons_of_pos _ (by simp [hk'])]
      · rw [List.find?_cons_of_neg _ (by simp [hk']),
          List.find?_cons_of_neg _ (by simp [hk'])]
        exact find?_map_replace_ne k k' v hne t

theorem mapGet_mapSet_self {α : Type} (m : List (String × α)) (k : String)
    (v : α) : mapGet (mapSet m k v) k = some v := by
  unfold mapSet
  split
  case isTrue h =>
    unfold mapGet
    rw [find?_map_replace_self k v m h]
    rfl
  case isFalse h =>
    unfold mapGet
    rw [List.find?_append]
    have hm : m.find? (fun kv => kv.1 == k) = none := by
      rw [List.find?_eq_none]
      intro kv hkv
      intro hbeq
      exact h ((mapHas_iff m k).mpr ⟨kv, hkv, by simpa using hbeq⟩)
    simp [hm, List.find?]

theorem mapGet_mapSet_ne {α : Type} (m : List (String × α)) (k k' : String)
    (v : α) (hne : k' ≠ k) : mapGet (mapSet m k v) k' = mapGet m k' := by
  unfold mapSet
  split
  · unfold mapGet
    rw [find?_map_replace_ne k k' v hne m]
  · unfold mapGet
    rw [List.find?_append]
    have hkk : (k == k') = false := beq_eq_false_iff_ne.mpr (Ne.symm hne)
    have hlast : [(k, v)].find? (fun kv => kv.1 == k') = none := by
      simp [List.find?, hkk]
    simp [hlast]

theorem mapGet_eq_none {α : Type} (m : List (String × α)) (k : String)
    (h : ∀ kv ∈ m, kv.1 ≠ k) : mapGet m k = none := by
  unfold mapGet
  rw [List.find?_eq_none.mpr]
  · rfl
  · intro kv hkv
    simpa using h kv hkv

/-! ## Batching lemmas -/

theorem chunksAux_flatten {α : Type} (k : Nat) :
    ∀ l : List α, (chunksAux k l).flatten = l
  | [] => by simp [chunksAux]
  | a :: t => by
    rw [chunksAux]
    simp only [List.flatten_cons]
    rw [chunksAux_flatten k (t.drop k)]
    simp [List.take_append_drop]
termination_by l => l.length
decreasing_by simp only [List.length_drop, List.length_cons]; omega

theorem chunksAux_length {α : Type} (k : Nat) :
    ∀ l : List α, (chunksAux k l).length = (l.length + k) / (k + 1)
  | [] => by simp [chunksAux, Nat.div_eq_of_lt (by omega : k < k + 1)]
  | a :: t => by
    rw [chunksAux]
    simp only [List.length_cons]
    rw [chunksAux_length k (t.drop k)]
    simp only [List.length_drop]
    rcases Nat.le_total t.length k with h | h
    · rw [Nat.sub_eq_zero_of_le h]
      have e : t.length + 1 + k = t.length + (k + 1) := by omega
      rw [e, Nat.add_div_right _ (Nat.succ_pos k),
        Nat.div_eq_of_lt (by omega : 0 + k < k + 1),
        Nat.div_eq_of_lt (by omega : t.length < k + 1)]
    · have h1 : t.length - k + k = t.length := Nat.sub_add_cancel h
      have h2 : t.length + 1 + k = (t.length - k + k) + (k + 1) := by omega
      rw [h2, Nat.add_div_right _ (Nat.succ_pos k), h1]
termination_by l => l.length
decreasing_by simp only [List.length_drop, List.length_cons]; omega

/-! ## Analyzer pipeline lemmas -/

theorem analyzePacket_eq (infer : InferOracle) (p : PacketInfo) :
    analyzePacket infer p = Except.ok (analyzePacketOpt infer p) := by
  unfold analyzePacket analyzePacketOpt
  split
  · rfl
  · split <;> rfl

/-- The per-packet effect on the accumulated results map. -/
def resultStep (infer : InferOracle) (m : List (String × LayoutAnalysis))
    (p : PacketInfo) : List (String × LayoutAnalysis) :=
  match analyzePacketOpt infer p with
  | some l => mapSet m p.name l
  | none => m

theorem processBatch_eq (infer : InferOracle) (b : List PacketInfo) :
    processBatch infer b =
      Except.ok (b.map (fun p => (p.name, analyzePacketOpt infer p))) := by
  induction b with
  | nil => rfl
  | cons p t ih =>
    unfold processBatch at ih ⊢
    rw [List.mapM_cons, ih, analyzePacket_eq]
    rfl

theorem mergeBatch_map (infer : InferOracle) (b : List PacketInfo)
    (res : List (String × LayoutAnalysis)) :
    mergeBatch res (b.map (fun p => (p.name, analyzePacketOpt infer p))) =
      b.foldl (resultStep infer) res := by
  unfold mergeBatch
  rw [List.foldl_map]
  rfl

theorem analyzePacketsGo_eq (infer : InferOracle) :
    ∀ (bs : List (List PacketInfo)) (res : List (String × LayoutAnalysis)),
      analyzePacketsGo infer bs res =
        Except.ok (bs.foldl (fun r b => b.foldl (resultStep infer) r) res)
  | [], res => rfl
  | b :: bs, res => by
    unfold analyzePacketsGo
    rw [processBatch_eq]
    change analyzePacketsGo infer bs
      (mergeBatch res (b.map (fun p => (p.name, analyzePacketOpt infer p)))) = _
    rw [mergeBatch_map]
    exact analyzePacketsGo_eq infer bs _

/-- The results map `analyzePackets` resolves with: a left fold of
`resultStep` over the filtered queue. -/
def buildResults (infer : InferOracle) (queue : List PacketInfo) :
    List (String × LayoutAnalysis) :=
  queue.foldl (resultStep infer) []

theorem analyzePackets_eq (infer : InferOracle) (maxConc : Nat)
    (packets : List PacketInfo) :
    analyzePackets infer maxConc packets =
      Except.ok (buildResults infer (analyzeQueue packets)) := by
  unfold analyzePackets buildResults
  rw [analyzePacketsGo_eq]
  congr 1
  rw [← List.foldl_flatten, chunksAux_flatten]

theorem mapGet_foldl_not_mem (infer : InferOracle) (k : String) :
    ∀ (t : List PacketInfo) (r : List (String × LayoutAnalysis)),
      (∀ p ∈ t, p.name ≠ k) →
      mapGet (t.foldl (resultStep infer) r) k = mapGet r k
  | [], r, _ => rfl
  | p :: t, r, h => by
    rw [List.foldl_cons,
      mapGet_foldl_not_mem infer k t _ (fun q hq => h q (List.mem_cons_of_mem _ hq))]
    unfold resultStep
    split
    · exact mapGet_mapSet_ne r p.name k _ (Ne.symm (h p (List.mem_cons_self p t)))
    · rfl

theorem mapGet_foldl_resultStep (infer : InferOracle) :
    ∀ (queue : List PacketInfo) (r : List (String × LayoutAnalysis)),
      (queue.map PacketInfo.name).Nodup →
      (∀ p ∈ queue, mapGet r p.name = none) →
      ∀ q ∈ queue,
        mapGet (queue.foldl (resultStep infer) r) q.name =
          analyzePacketOpt infer q
  | [], _, _, _, q, hq => absurd hq (List.not_mem_nil q)
  | p :: t, r, hnd, hr, q, hq => by
    rw [List.map_cons, List.nodup_cons] at hnd
    rw [List.foldl_cons]
    rcases List.mem_cons.mp hq with h | h
    · subst h
      rw [mapGet_foldl_not_mem infer q.name t _
        (fun x hx hx2 => hnd.1 (hx2 ▸ List.mem_map_of_mem PacketInfo.name hx))]
      unfold resultStep
      split
      case _ l hl => rw [hl, mapGet_mapSet_self]
      case _ hl => rw [hl]; exact hr q (List.mem_cons_self q t)
    · refine mapGet_foldl_resultStep infer t _ hnd.2 ?_ q h
      intro x hx
      unfold resultStep
      split
      · rw [mapGet_mapSet_ne]
        · exact hr x (List.mem_cons_of_mem _ hx)
        · intro hxe
          exact hnd.1 (hxe ▸ List.mem_map_of_mem PacketInfo.name hx)
      · exact hr x (List.mem_cons_of_mem _ hx)

theorem chunksAux_size_le {α : Type} (k : Nat) :
    ∀ l : List α, ∀ b ∈ chunksAux k l, b.length ≤ k + 1
  | [] => by simp [chunksAux]
  | a :: t => by
    rw [chunksAux]
    intro b hb
    rcases List.mem_cons.mp hb with h | h
    · subst h
      simp only [List.length_cons, List.length_take]
      omega
    · exact chunksAux_size_le k (t.drop k) b h
termination_by l => l.length
decreasing_by simp only [List.length_drop, List.length_cons]; omega

/-! ## Sample values (used by witnesses and counterexamples) -/

/-- A packet with a context bundle and one declared field `a`. -/
def packetD : PacketInfo :=
  { name := "D"
    pkg := "com.example"
    category := "cat"
    isCompressed := false
    nullableBitFieldSize := 0
    fixedBlockSize := 0
    variableFieldCount := 0
    variableBlockStart := 0
    maxSize := 0
    fields :=
      [{ name := "a", javaType := "int", nullable := false,
         isVariable := false, encoding := "" }]
    imports := []
    isEnum := false
    isDataClass := false
    deserializeContext := some "ctxD" }

/-- A packet with a context bundle. -/
def packetA : PacketInfo :=
  { packetD with name := "A", deserializeContext := some "ctxA" }

/-- A second packet with a context bundle. -/
def packetB : PacketInfo :=
  { packetD with name := "B", deserializeContext := some "ctxB" }

/-- A packet without a context bundle. -/
def packetNoCtx : PacketInfo :=
  { packetD with name := "N", deserializeContext := none }

/-- A minimal validated inference response. -/
def rawSample : RawLayoutAnalysis :=
  { fields := []
    totalFixedSize := 0
    hasVariableSection := false
    variableSectionStart := none
    nullBitMappings := []
    notes := none }

/-- A validated response whose single field name `bogus` is not a declared
field of `packetD`. -/
def rawBogus : RawLayoutAnalysis :=
  { rawSample with
      fields :=
        [{ name := "bogus", wireOffset := 0, wireSize := 1,
           encoding := "byte", isVariable := false, nullBit := none,
           notes := none }]
      totalFixedSize := 1 }

/-- A validated response with two distinct fields that both carry
`nullBit = 3` (which is not a power of two). -/
def rawDupBits : RawLayoutAnalysis :=
  { rawSample with
      fields :=
        [{ name := "x", wireOffset := 0, wireSize := 1, encoding := "byte",
           isVariable := false, nullBit := some 3, notes := none },
         { name := "y", wireOffset := 1, wireSize := 1, encoding := "byte",
           isVariable := false, nullBit := some 3, notes := none }] }

/-- An oracle that fails for packet `A` and answers `rawSample` otherwise. -/
def inferW : InferOracle :=
  fun p => if p.name == "A" then Except.error "boom"
           else Except.ok (some rawSample)

/-- An oracle that always answers `rawBogus`. -/
def inferBogus : InferOracle :=
  fun _ => Except.ok (some rawBogus)

/-- An oracle that always answers `rawDupBits`. -/
def inferDup : InferOracle :=
  fun _ => Except.ok (some rawDupBits)

/-! ## Claim C2 -/

/-- C2: `analyzePackets` filters out the packets without a deserialization
context before scheduling, drains the remaining queue in exactly ⌈N/K⌉
sequential groups of at most K packets each, and a failure of one member of
a group does not prevent the successes of the other members from appearing
in the returned map. -/
theorem analyzePackets_batches (infer : InferOracle) (K : Nat)
    (packets : List PacketInfo) (hK : 0 < K)
    (hnames : ((analyzeQueue packets).map PacketInfo.name).Nodup) :
    (∀ p ∈ analyzeQueue packets, hasDeserializeContext p = true) ∧
    (∀ p ∈ packets, hasDeserializeContext p = true →
      p ∈ analyzeQueue packets) ∧
    (chunksAux (K - 1) (analyzeQueue packets)).length =
      ((analyzeQueue packets).length + K - 1) / K ∧
    (∀ b ∈ chunksAux (K - 1) (analyzeQueue packets), b.length ≤ K) ∧
    (∀ q ∈ analyzeQueue packets, ∀ l, analyzePacketOpt infer q = some l →
      ∃ res, analyzePackets infer K packets = Except.ok res ∧
        mapGet res q.name = some l) := by
  refine ⟨?_, ?_, ?_, ?_, ?_⟩
  · intro p hp
    exact (List.mem_filter.mp hp).2
  · intro p hp hctx
    exact List.mem_filter.mpr ⟨hp, hctx⟩
  · rw [chunksAux_length]
    congr 1 <;> omega
  · intro b hb
    have := chunksAux_size_le (K - 1) _ b hb
    omega
  · intro q hq l hl
    refine ⟨buildResults infer (analyzeQueue packets),
      analyzePackets_eq infer K packets, ?_⟩
    unfold buildResults
    rw [mapGet_foldl_resultStep infer (analyzeQueue packets) [] hnames
      (fun p _ => rfl) q hq, hl]

/-- Witness for C2 at `K = 2` and three context-carrying packets, one of
which (`A`) fails: the batch count is ⌈3/2⌉ = 2 and `B`'s success still
lands in the map. -/
theorem analyzePackets_batches_witness :
    (0 < 2 ∧ ((analyzeQueue [packetA, packetB, packetD]).map
      PacketInfo.name).Nodup) ∧
    (chunksAux (2 - 1) (analyzeQueue [packetA, packetB, packetD])).length =
      ((analyzeQueue [packetA, packetB, packetD]).length + 2 - 1) / 2 ∧
    (∃ res, analyzePackets inferW 2 [packetA, packetB, packetD] =
        Except.ok res ∧
      mapGet res packetB.name = some (normalizeLayout rawSample packetB)) :=
  ⟨⟨by norm_num, by decide⟩,
    (analyzePackets_batches inferW 2 [packetA, packetB, packetD]
      (by norm_num) (by decide)).2.2.1,
    (analyzePackets_batches inferW 2 [packetA, packetB, packetD]
      (by norm_num) (by decide)).2.2.2.2 packetB (by decide)
      (normalizeLayout rawSample packetB) (by decide)⟩

/-! ## Claim C3 -/

/-- C3: `analyzePacket` resolves with `null` and never rejects when the
packet has no context bundle, when the request errors, or when there is no
structured output; exactly one request is issued per bundled packet with no
retry; and a `null` result leaves the packet absent from the batch results
map instead of aborting the batch. -/
theorem analyzePacket_failure_semantics (infer : InferOracle)
    (packet : PacketInfo) :
    (packet.deserializeContext = none →
      analyzePacket infer packet = Except.ok none ∧
      inferRequestCount packet = 0) ∧
    (∀ e, infer packet = Except.error e →
      analyzePacket infer packet = Except.ok none) ∧
    (infer packet = Except.ok none →
      analyzePacket infer packet = Except.ok none) ∧
    (hasDeserializeContext packet = true → inferRequestCount packet = 1) ∧
    (∃ r, analyzePacket infer packet = Except.ok r) ∧
    (∀ K packets, 0 < K → packet ∈ analyzeQueue packets →
      ((analyzeQueue packets).map PacketInfo.name).Nodup →
      analyzePacketOpt infer packet = none →
      ∃ res, analyzePackets infer K packets = Except.ok res ∧
        mapGet res packet.name = none) := by
  refine ⟨?_, ?_, ?_, ?_, ?_, ?_⟩
  · intro h
    constructor
    · unfold analyzePacket
      rw [if_pos (by simp [hasDeserializeContext, h])]
    · unfold inferRequestCount
      rw [if_pos (by simp [hasDeserializeContext, h])]
  · intro e he
    unfold analyzePacket
    split
    · rfl
    · rw [he]
  · intro he
    unfold analyzePacket
    split
    · rfl
    · rw [he]
  · intro h
    unfold inferRequestCount
    rw [if_neg (by simp [h])]
  · exact ⟨analyzePacketOpt infer packet, analyzePacket_eq infer packet⟩
  · intro K packets _ hq hnames hnone
    refine ⟨buildResults infer (analyzeQueue packets),
      analyzePackets_eq infer K packets, ?_⟩
    unfold buildResults
    rw [mapGet_foldl_resultStep infer (analyzeQueue packets) [] hnames
      (fun p _ => rfl) packet hq, hnone]

/-- Witness for C3: a bundle-less packet resolves with `null` and issues no
request; the failing packet `A` is absent from a batch that still
succeeds. -/
theorem analyzePacket_failure_semantics_witness :
    (packetNoCtx.deserializeContext = none ∧
      analyzePacket inferW packetNoCtx = Except.ok none ∧
      inferRequestCount packetNoCtx = 0) ∧
    (inferW packetA = Except.error "boom" ∧
      analyzePacket inferW packetA = Except.ok none) ∧
    (∃ res, analyzePackets inferW 2 [packetA, packetB] = Except.ok res ∧
      mapGet res packetA.name = none) :=
  ⟨⟨rfl, ((analyzePacket_failure_semantics inferW packetNoCtx).1 rfl).1,
      ((analyzePacket_failure_semantics inferW packetNoCtx).1 rfl).2⟩,
    ⟨rfl, (analyzePacket_failure_semantics inferW packetA).2.1 "boom" rfl⟩,
    (analyzePacket_failure_semantics inferW packetA).2.2.2.2.2 2
      [packetA, packetB] (by norm_num) (by decide) (by decide) (by decide)⟩

/-! ## Claim C5 -/

/-- Counterexample to C5: `normalizeLayout` performs no validation of field
names against the entity's declared fields, so an oracle response naming a
field (`bogus`) that the packet does not declare is accepted verbatim. -/
theorem analyzePacket_field_names_counterexample :
    analyzePacketOpt inferBogus packetD =
      some (normalizeLayout rawBogus packetD) ∧
    (normalizeLayout rawBogus packetD).fields.map FieldLayoutInfo.name =
      ["bogus"] ∧
    "bogus" ∉ packetD.fields.map FieldInfo.name := by
  refine ⟨by decide, by decide, by decide⟩

/-- C5 as amended: for a bundled packet, inference yields nothing or a
`LayoutAnalysis` whose field names are exactly those of the oracle's
validated response (they are not checked against the entity's declared
field names), and in no case does it crash the batch. -/
theorem analyzePacket_yields_response_fields (infer : InferOracle)
    (packet : PacketInfo) :
    (∀ l, analyzePacketOpt infer packet = some l →
      ∃ raw, infer packet = Except.ok (some raw) ∧
        l.fields.map FieldLayoutInfo.name =
          raw.fields.map RawFieldLayout.name) ∧
    (∀ K packets, ∃ res,
      analyzePackets infer K packets = Except.ok res) := by
  constructor
  · intro l hl
    unfold analyzePacketOpt at hl
    split at hl
    · exact absurd hl (by simp)
    · split at hl
      · exact absurd hl (by simp)
      · exact absurd hl (by simp)
      case _ raw heq =>
        refine ⟨raw, heq, ?_⟩
        rw [Option.some.injEq] at hl
        rw [← hl]
        unfold normalizeLayout
        rw [List.map_map]
        rfl
  · intro K packets
    exact ⟨buildResults infer (analyzeQueue packets),
      analyzePackets_eq infer K packets⟩

/-- Witness for C5 (amended) at the `bogus` response. -/
theorem analyzePacket_yields_response_fields_witness :
    (analyzePacketOpt inferBogus packetD =
        some (normalizeLayout rawBogus packetD)) ∧
    (∃ raw, inferBogus packetD = Except.ok (some raw) ∧
      (normalizeLayout rawBogus packetD).fields.map FieldLayoutInfo.name =
        raw.fields.map RawFieldLayout.name) :=
  ⟨by decide,
    (analyzePacket_yields_response_fields inferBogus packetD).1
      (normalizeLayout rawBogus packetD) (by decide)⟩

/-! ## Claim C7 -/

/-- Counterexample to C7: the schema only requires `nullBit` to be an
integer, so a response giving two distinct fields the same non-power-of-two
bit `3` is accepted into the batch results map unchanged. -/
theorem nullBit_validation_counterexample :
    analyzePackets inferDup 5 [packetD] =
      Except.ok [("D", normalizeLayout rawDupBits packetD)] ∧
    (normalizeLayout rawDupBits packetD).fields.map FieldLayoutInfo.nullBit =
      [some 3, some 3] ∧
    ((normalizeLayout rawDupBits packetD).fields.map
      FieldLayoutInfo.name).Nodup ∧
    ¬ ∃ k : Nat, (3 : Int) = 2 ^ k := by
  refine ⟨by rw [analyzePackets_eq]; rfl, by decide, by decide, ?_⟩
  rintro ⟨k, hk⟩
  match k with
  | 0 => norm_num at hk
  | 1 => norm_num at hk
  | k + 2 =>
    have h4 : (4 : Int) ≤ 2 ^ (k + 2) := by
      calc (4 : Int) = 2 ^ 2 := by norm_num
        _ ≤ 2 ^ (k + 2) := by
            apply pow_le_pow_right (by norm_num) (by omega)
    rw [← hk] at h4
    norm_num at h4

/-- C7 as amended: an accepted `LayoutAnalysis` carries the oracle
response's `nullBit` values verbatim; no power-of-two or distinctness
validation is performed on them. -/
theorem normalizeLayout_nullBit_passthrough (infer : InferOracle)
    (packet : PacketInfo) :
    (∀ raw, (normalizeLayout raw packet).fields.map FieldLayoutInfo.nullBit =
      raw.fields.map RawFieldLayout.nullBit) ∧
    (∀ l, analyzePacketOpt infer packet = some l →
      ∃ raw, infer packet = Except.ok (some raw) ∧
        l = normalizeLayout raw packet) := by
  constructor
  · intro raw
    unfold normalizeLayout
    rw [List.map_map]
    rfl
  · intro l hl
    unfold analyzePacketOpt at hl
    split at hl
    · exact absurd hl (by simp)
    · split at hl
      · exact absurd hl (by simp)
      · exact absurd hl (by simp)
      case _ raw heq =>
        rw [Option.some.injEq] at hl
        exact ⟨raw, heq, hl.symm⟩

/-! ## Claim C4 -/

/-- The enum constants `extractEnumValues` records: `enum_constant` nodes
with a truthy name, in traversal order. -/
def enumConsts (body : SNode) : List SNode :=
  body.preorder.filter
    (fun c => c.ty == "enum_constant" && nodeText (c.field "name") != "")

/-- The explicit value carried by an enum constant: its first
constructor-argument, when that parses as an integer. -/
def enumArgValue (c : SNode) : Option Int :=
  match c.field "arguments" with
  | some args =>
    match args.children.head? with
    | some firstArg => jsParseInt firstArg.text
    | none => none
  | none => none

theorem enumConstStep_eq (acc : List EnumValue) (c : SNode) :
    enumConstStep acc c =
      if c.ty == "enum_constant" && nodeText (c.field "name") != "" then
        acc ++ [{ name := nodeText (c.field "name")
                  value :=
                    match enumArgValue c with
                    | some v => v
                    | none => (acc.length : Int) }]
      else acc := by
  unfold enumConstStep enumArgValue
  cases h1 : (c.ty == "enum_constant")
  · simp [h1]
  · cases h2 : (nodeText (c.field "name") != "")
    · simp [h1, h2]
    · simp only [h1, h2, Bool.and_self, if_true]
      cases ha : c.field "arguments" with
      | none => simp [ha]
      | some args =>
        cases hh : args.children.head? with
        | none => simp [ha, hh]
        | some firstArg =>
          cases hp : jsParseInt firstArg.text <;> simp [ha, hh, hp]

theorem foldl_enumConstStep (l : List SNode) (acc : List EnumValue) :
    l.foldl enumConstStep acc =
      acc ++
        ((l.filter
          (fun c => c.ty == "enum_constant" &&
            nodeText (c.field "name") != "")).enumFrom acc.length).map
          (fun p =>
            { name := nodeText (p.2.field "name")
              value :=
                match enumArgValue p.2 with
                | some v => v
                | none => (p.1 : Int) }) := by
  induction l generalizing acc with
  | nil => simp
  | cons c t ih =>
    rw [List.foldl_cons, ih, enumConstStep_eq]
    cases h : (c.ty == "enum_constant" && nodeText (c.field "name") != "")
    · rw [if_neg (by simp [h])]
      rw [@List.filter_cons_of_neg _
        (fun c => c.ty == "enum_constant" && nodeText (c.field "name") != "")
        c t (by simp [h])]
    · rw [if_pos rfl]
      rw [@List.filter_cons_of_pos _
        (fun c => c.ty == "enum_constant" && nodeText (c.field "name") != "")
        c t h]
      simp [List.enumFrom_cons]

/-- C4: for every extracted enum declaration, each constant's value is the
integer parsed from its first constructor argument when it parses, and
otherwise its declaration index (0, 1, 2, …) among the extracted constants;
an explicit integer literal argument always overrides the index. -/
theorem extractEnumInfo_values (node body : SNode)
    (content category relPath : String) (ei : EnumInfo)
    (hsome : extractEnumInfo node content category relPath = some ei)
    (hbody : node.field "body" = some body) :
    ei.values =
      (enumConsts body).enum.map
        (fun p =>
          { name := nodeText (p.2.field "name")
            value :=
              match enumArgValue p.2 with
              | some v => v
              | none => (p.1 : Int) }) := by
  unfold extractEnumInfo at hsome
  simp only [hbody] at hsome
  split at hsome
  · exact absurd hsome (by simp)
  · rw [Option.some.injEq] at hsome
    rw [← hsome]
    unfold extractEnumValues enumConsts
    rw [foldl_enumConstStep]
    simp [List.enum]

/-- A sample enum body: `RED`, `GREEN(7)`, `BLUE`. -/
def enumBodySample : SNode :=
  .node "enum_body" "" []
    [.node "enum_constant" ""
       [("name", .node "identifier" "RED" [] [])] [],
     .node "enum_constant" ""
       [("name", .node "identifier" "GREEN" [] []),
        ("arguments", .node "argument_list" "" []
          [.node "decimal_integer_literal" "7" [] []])] [],
     .node "enum_constant" ""
       [("name", .node "identifier" "BLUE" [] [])] []]

/-- A sample enum declaration node wrapping `enumBodySample`. -/
def enumNodeSample : SNode :=
  .node "enum_declaration" ""
    [("name", .node "identifier" "Color" [] []),
     ("body", enumBodySample)] []

/-- Witness for C4: `RED` and `BLUE` take indices 0 and 2, the explicit
literal `7` overrides `GREEN`'s index 1. -/
theorem extractEnumInfo_values_witness :
    ∃ ei, extractEnumInfo enumNodeSample "" "cat" "rp" = some ei ∧
      enumNodeSample.field "body" = some enumBodySample ∧
      ei.values =
        (enumConsts enumBodySample).enum.map
          (fun p =>
            { name := nodeText (p.2.field "name")
              value :=
                match enumArgValue p.2 with
                | some v => v
                | none => (p.1 : Int) }) ∧
      ei.values =
        [⟨"RED", 0⟩, ⟨"GREEN", 7⟩, ⟨"BLUE", 2⟩] :=
  ⟨{ name := "Color", pkg := "", category := "cat", sourcePath := "rp",
     values := [⟨"RED", 0⟩, ⟨"GREEN", 7⟩, ⟨"BLUE", 2⟩] },
    by decide, rfl,
    extractEnumInfo_values enumNodeSample enumBodySample "" "cat" "rp" _
      (by decide) rfl,
    by decide⟩

/-! ## Claim C1 -/

/-- The constructors the selection fold actually compares: the
`constructor_declaration` nodes of the traversal that have a `parameters`
field and are not single-parameter copy constructors, each paired with the
name of its nearest enclosing class. -/
def ctorCandidates (encl : String) (body : SNode) : List (String × SNode) :=
  (body.preorderC encl).filter
    (fun ec =>
      ec.2.ty == "constructor_declaration" &&
      (ec.2.field "parameters").isSome &&
      !(ctorParamCount ec.2 == 1 && isCopyParams ec.1 ec.2))

/-- The candidate-comparison step: strict improvement on the parameter
count. -/
def selectStep (st : CtorSel) (ec : String × SNode) : CtorSel :=
  if ctorParamCount ec.2 > st.maxParams then ⟨some ec.2, ctorParamCount ec.2⟩
  else st

/-- Running maximum of the parameter counts, seeded with `m0`. -/
def maxFrom (m0 : Nat) (l : List (String × SNode)) : Nat :=
  l.foldl (fun m ec => max m (ctorParamCount ec.2)) m0

/-- Maximum parameter count over the candidate list. -/
def maxCtorParams (cands : List (String × SNode)) : Nat :=
  maxFrom 0 cands

/-- The claim-side reading of a constructor's parameter list: one field per
parameter, in order, with its name, declared type and `@Nullable`
nullability. -/
def specParamFields (ctor : SNode) : List FieldInfo :=
  match ctor.field "parameters" with
  | none => []
  | some params =>
    params.children.map
      (fun p =>
        { name := nodeText (p.field "name")
          javaType := nodeText (p.field "type")
          nullable := strContains (modifiersText p) "@Nullable"
          isVariable := false
          encoding := "" })

/-- Well-formed parameter list: every child of the `parameters` node is a
`formal_parameter` carrying both a type and a name node (true of every
constructor the decompiler emits). -/
def wfCtorParams (ctor : SNode) : Bool :=
  match ctor.field "parameters" with
  | none => false
  | some params =>
    params.children.all
      (fun p =>
        p.ty == "formal_parameter" && (p.field "type").isSome &&
          (p.field "name").isSome)

theorem ctorStep_eq (st : CtorSel) (ec : String × SNode) :
    ctorStep st ec =
      if ec.2.ty == "constructor_declaration" &&
          (ec.2.field "parameters").isSome &&
          !(ctorParamCount ec.2 == 1 && isCopyParams ec.1 ec.2) then
        selectStep st ec
      else st := by
  unfold ctorStep selectStep
  cases h1 : (ec.2.ty == "constructor_declaration")
  · simp [h1]
  · cases h2 : ec.2.field "parameters" with
    | none => simp [h1, h2]
    | some params =>
      cases h3 : (ctorParamCount ec.2 == 1 && isCopyParams ec.1 ec.2) <;>
        simp [h1, h2, h3]

theorem foldl_ctorStep_filter (l : List (String × SNode)) (st : CtorSel) :
    l.foldl ctorStep st =
      (l.filter
        (fun ec =>
          ec.2.ty == "constructor_declaration" &&
          (ec.2.field "parameters").isSome &&
          !(ctorParamCount ec.2 == 1 && isCopyParams ec.1 ec.2))).foldl
        selectStep st := by
  induction l generalizing st with
  | nil => rfl
  | cons ec t ih =>
    rw [List.foldl_cons, ctorStep_eq]
    cases h : (ec.2.ty == "constructor_declaration" &&
        (ec.2.field "parameters").isSome &&
        !(ctorParamCount ec.2 == 1 && isCopyParams ec.1 ec.2))
    · rw [if_neg (by simp)]
      rw [@List.filter_cons_of_neg _
        (fun ec =>
          ec.2.ty == "constructor_declaration" &&
          (ec.2.field "parameters").isSome &&
          !(ctorParamCount ec.2 == 1 && isCopyParams ec.1 ec.2))
        ec t (by simp only [h]; exact Bool.false_ne_true)]
      exact ih st
    · rw [if_pos rfl]
      rw [@List.filter_cons_of_pos _
        (fun ec =>
          ec.2.ty == "constructor_declaration" &&
          (ec.2.field "parameters").isSome &&
          !(ctorParamCount ec.2 == 1 && isCopyParams ec.1 ec.2))
        ec t h]
      rw [List.foldl_cons]
      exact ih (selectStep st ec)

theorem maxFrom_ge (m0 : Nat) (l : List (String × SNode)) :
    m0 ≤ maxFrom m0 l := by
  induction l generalizing m0 with
  | nil => exact Nat.le_refl m0
  | cons ec t ih =>
    unfold maxFrom at ih ⊢
    rw [List.foldl_cons]
    exact Nat.le_trans (Nat.le_max_left m0 (ctorParamCount ec.2)) (ih _)

theorem maxFrom_is_max (m0 : Nat) (l : List (String × SNode)) :
    ∀ ec ∈ l, ctorParamCount ec.2 ≤ maxFrom m0 l := by
  induction l generalizing m0 with
  | nil => intro ec h; exact absurd h (List.not_mem_nil ec)
  | cons x t ih =>
    intro ec h
    unfold maxFrom
    rw [List.foldl_cons]
    rcases List.mem_cons.mp h with h | h
    · subst h
      exact Nat.le_trans (Nat.le_max_right m0 (ctorParamCount ec.2))
        (maxFrom_ge _ t)
    · exact ih _ ec h

theorem foldl_selectStep_spec (l : List (String × SNode)) (st : CtorSel) :
    l.foldl selectStep st =
      ⟨if maxFrom st.maxParams l = st.maxParams then st.best
        else (l.find?
          (fun ec => ctorParamCount ec.2 == maxFrom st.maxParams l)).map
            (·.2),
        maxFrom st.maxParams l⟩ := by
  induction l generalizing st with
  | nil => simp [maxFrom]
  | cons ec t ih =>
    have hm : maxFrom st.maxParams (ec :: t) =
        maxFrom (max st.maxParams (ctorParamCount ec.2)) t := by
      unfold maxFrom
      rw [List.foldl_cons]
    rw [List.foldl_cons]
    by_cases hgt : ctorParamCount ec.2 > st.maxParams
    · rw [show selectStep st ec = ⟨some ec.2, ctorParamCount ec.2⟩ from by
        unfold selectStep; rw [if_pos hgt]]
      rw [ih]
      have hmax : max st.maxParams (ctorParamCount ec.2) =
          ctorParamCount ec.2 := Nat.max_eq_right (Nat.le_of_lt hgt)
      have hge : ctorParamCount ec.2 ≤
          maxFrom (ctorParamCount ec.2) t := maxFrom_ge _ t
      rw [hm, hmax]
      have hne : ¬(maxFrom (ctorParamCount ec.2) t = st.maxParams) := by
        omega
      rw [if_neg hne]
      by_cases heq : ctorParamCount ec.2 = maxFrom (ctorParamCount ec.2) t
      · rw [if_pos heq.symm]
        rw [List.find?_cons_of_pos _ (by simpa using heq)]
        simp
      · rw [if_neg (fun hc => heq hc.symm)]
        rw [List.find?_cons_of_neg _ (by simpa using heq)]
    · rw [show selectStep st ec = st from by
        unfold selectStep; rw [if_neg hgt]]
      rw [ih]
      have hmax : max st.maxParams (ctorParamCount ec.2) = st.maxParams :=
        Nat.max_eq_left (by omega)
      rw [hm, hmax]
      by_cases heq : maxFrom st.maxParams t = st.maxParams
      · rw [if_pos heq, if_pos heq]
      · rw [if_neg heq, if_neg heq]
        have hge : st.maxParams ≤ maxFrom st.maxParams t := maxFrom_ge _ t
        rw [List.find?_cons_of_neg _ (by
          simp only [beq_iff_eq]
          omega)]

/-- The selection of `extractFieldsFromConstructor`, characterised: nothing
when no candidate has a parameter, else the parameter fields of the first
candidate achieving the maximum parameter count. -/
theorem extractFieldsFromConstructor_eq (encl : String) (body : SNode) :
    extractFieldsFromConstructor encl body =
      (if maxCtorParams (ctorCandidates encl body) = 0 then []
       else
        match (ctorCandidates encl body).find?
            (fun ec => ctorParamCount ec.2 ==
              maxCtorParams (ctorCandidates encl body)) with
        | some ec => ctorFieldList ec.2
        | none => []) := by
  unfold extractFieldsFromConstructor
  rw [foldl_ctorStep_filter]
  have hc : (body.preorderC encl).filter
      (fun ec =>
        ec.2.ty == "constructor_declaration" &&
        (ec.2.field "parameters").isSome &&
        !(ctorParamCount ec.2 == 1 && isCopyParams ec.1 ec.2)) =
      ctorCandidates encl body := rfl
  rw [hc, foldl_selectStep_spec]
  unfold maxCtorParams
  by_cases h0 : maxFrom 0 (ctorCandidates encl body) = 0
  · rw [if_pos h0]
    simp [h0]
  · rw [if_neg h0]
    simp only [h0, if_false]
    cases (ctorCandidates encl body).find?
        (fun ec => ctorParamCount ec.2 ==
          maxFrom 0 (ctorCandidates encl body)) with
    | none => rfl
    | some ec => rfl

theorem paramField_map (l : List SNode)
    (hwf : ∀ p ∈ l,
      (p.ty == "formal_parameter" && (p.field "type").isSome &&
        (p.field "name").isSome) = true) :
    l.filterMap paramField =
      l.map
        (fun p =>
          { name := nodeText (p.field "name")
            javaType := nodeText (p.field "type")
            nullable := strContains (modifiersText p) "@Nullable"
            isVariable := false
            encoding := "" }) ∧
    (l.filterMap paramField).length = l.length := by
  induction l with
  | nil => exact ⟨rfl, rfl⟩
  | cons p t ih =>
    have hwp := hwf p (List.mem_cons_self p t)
    simp only [Bool.and_eq_true, beq_iff_eq] at hwp
    obtain ⟨⟨hty, hst⟩, hsn⟩ := hwp
    rw [Option.isSome_iff_exists] at hst hsn
    obtain ⟨tn, htn⟩ := hst
    obtain ⟨nn, hnn⟩ := hsn
    have hpf : paramField p =
        some
          { name := nn.text
            javaType := tn.text
            nullable := strContains (modifiersText p) "@Nullable"
            isVariable := false
            encoding := "" } := by
      unfold paramField
      rw [if_pos (by simp [hty]), htn, hnn]
    have iht := ih (fun x hx => hwf x (List.mem_cons_of_mem p hx))
    constructor
    · rw [List.filterMap_cons_some hpf, List.map_cons, iht.1]
      simp [htn, hnn, nodeText]
    · rw [List.filterMap_cons_some hpf]
      simp [iht.2]

theorem ctorFieldList_wf (ctor : SNode) (hwf : wfCtorParams ctor = true) :
    ctorFieldList ctor = specParamFields ctor ∧
    (ctorFieldList ctor).length = ctorParamCount ctor := by
  unfold wfCtorParams at hwf
  cases hp : ctor.field "parameters" with
  | none => rw [hp] at hwf; exact absurd hwf (by simp)
  | some params =>
    rw [hp] at hwf
    rw [List.all_eq_true] at hwf
    have h := paramField_map params.children hwf
    unfold ctorFieldList specParamFields ctorParamCount
    constructor
    · simp only [hp]
      exact h.1
    · simp only [hp]
      rw [h.2, List.filter_eq_self.mpr]
      intro a ha
      have hh := hwf a ha
      simp only [Bool.and_eq_true] at hh
      simp [hh.1.1]

/-- C1: field extraction prefers the constructor with the maximum parameter
count among non-copy constructors (first seen wins on ties, which the
`find?` below makes explicit), producing exactly its ordered parameter list
(name, declared type, `@Nullable` nullability); only when no such
constructor yields any parameters does it fall back to the non-static field
declarations. -/
theorem extractFields_spec (node body : SNode)
    (hbody : node.field "body" = some body)
    (hwf : ∀ ec ∈ ctorCandidates (nodeText (node.field "name")) body,
      wfCtorParams ec.2 = true) :
    (maxCtorParams (ctorCandidates (nodeText (node.field "name")) body) = 0 →
      extractFields node = fallbackFields body) ∧
    (∀ ec,
      (ctorCandidates (nodeText (node.field "name")) body).find?
        (fun x => ctorParamCount x.2 ==
          maxCtorParams (ctorCandidates (nodeText (node.field "name")) body))
        = some ec →
      0 < maxCtorParams (ctorCandidates (nodeText (node.field "name")) body) →
      extractFields node = specParamFields ec.2 ∧
      ctorParamCount ec.2 =
        maxCtorParams (ctorCandidates (nodeText (node.field "name")) body) ∧
      ∀ x ∈ ctorCandidates (nodeText (node.field "name")) body,
        ctorParamCount x.2 ≤ ctorParamCount ec.2) := by
  have hext : extractFields node =
      (let cf := extractFieldsFromConstructor (nodeText (node.field "name"))
        body
       if cf.length > 0 then cf else fallbackFields body) := by
    unfold extractFields
    rw [hbody]
  constructor
  · intro h0
    rw [hext]
    rw [extractFieldsFromConstructor_eq, if_pos h0]
    rfl
  · intro ec hfind hpos
    have hmem : ec ∈ ctorCandidates (nodeText (node.field "name")) body :=
      List.mem_of_find?_eq_some hfind
    have hcnt : ctorParamCount ec.2 =
        maxCtorParams (ctorCandidates (nodeText (node.field "name")) body) := by
      have := List.find?_some hfind
      simpa using this
    have hwfe := hwf ec hmem
    have hflds := ctorFieldList_wf ec.2 hwfe
    have hcf : extractFieldsFromConstructor (nodeText (node.field "name"))
        body = ctorFieldList ec.2 := by
      rw [extractFieldsFromConstructor_eq, if_neg (by omega), hfind]
    refine ⟨?_, hcnt, ?_⟩
    · rw [hext]
      simp only [hcf]
      rw [if_pos (by rw [hflds.2]; omega)]
      exact hflds.1
    · intro x hx
      rw [hcnt]
      exact maxFrom_is_max 0 _ x hx

/-- Sample constructor with parameters `(int id, @Nullable String nm)`. -/
def ctorSample2 : SNode :=
  .node "constructor_declaration" ""
    [("parameters", .node "formal_parameters" "" []
      [.node "formal_parameter" ""
         [("type", .node "type_identifier" "int" [] []),
          ("name", .node "identifier" "id" [] [])] [],
       .node "formal_parameter" ""
         [("type", .node "type_identifier" "String" [] []),
          ("name", .node "identifier" "nm" [] [])]
         [.node "modifiers" "@Nullable" [] []]])] []

/-- Sample copy constructor `(P other)`. -/
def ctorSampleCopy : SNode :=
  .node "constructor_declaration" ""
    [("parameters", .node "formal_parameters" "" []
      [.node "formal_parameter" ""
         [("type", .node "type_identifier" "P" [] []),
          ("name", .node "identifier" "other" [] [])] []])] []

/-- Sample class body: one field declaration, the copy constructor, then
the two-parameter constructor. -/
def classBodySample : SNode :=
  .node "class_body" "" []
    [.node "field_declaration" ""
       [("type", .node "type_identifier" "long" [] [])]
       [.node "variable_declarator" ""
          [("name", .node "identifier" "z" [] [])] []],
     ctorSampleCopy, ctorSample2]

/-- Sample class declaration `P` wrapping `classBodySample`. -/
def classNodeSample : SNode :=
  .node "class_declaration" ""
    [("name", .node "identifier" "P" [] []),
     ("body", classBodySample)] []

/-- Witness for C1: the copy constructor `(P other)` is excluded, the
two-parameter constructor wins, and the field list is exactly its parameter
list — not the declared field `z`. -/
theorem extractFields_spec_witness :
    (∀ ec ∈ ctorCandidates "P" classBodySample, wfCtorParams ec.2 = true) ∧
    (ctorCandidates "P" classBodySample).find?
      (fun x => ctorParamCount x.2 ==
        maxCtorParams (ctorCandidates "P" classBodySample)) =
      some ("P", ctorSample2) ∧
    0 < maxCtorParams (ctorCandidates "P" classBodySample) ∧
    extractFields classNodeSample = specParamFields ctorSample2 ∧
    extractFields classNodeSample =
      [{ name := "id", javaType := "int", nullable := false,
         isVariable := false, encoding := "" },
       { name := "nm", javaType := "String", nullable := true,
         isVariable := false, encoding := "" }] :=
  ⟨by decide, rfl, by decide,
    ((extractFields_spec classNodeSample classBodySample rfl (by decide)).2
      ("P", ctorSample2) rfl (by decide)).1,
    (((extractFields_spec classNodeSample classBodySample rfl (by decide)).2
      ("P", ctorSample2) rfl (by decide)).1).trans (by decide)⟩

/-! ## Claim C6 -/

/-- One recognised constant declaration: the `(name, value)` texts of a
static-final `field_declaration` with truthy name and value. -/
def constDeclOf (child : SNode) : Option (String × String) :=
  if child.ty == "field_declaration" then
    let modText := modifiersText child
    if strContains modText "static" && strContains modText "final" then
      match child.children.find? (fun c => c.ty == "variable_declarator") with
      | none => none
      | some declarator =>
        let name := nodeText (declarator.field "name")
        let value := nodeText (declarator.field "value")
        if name != "" && value != "" then some (name, value) else none
    else none
  else none

/-- All recognised constant declarations of a class body, in traversal
order. -/
def constDecls (body : SNode) : List (String × String) :=
  body.preorder.filterMap constDeclOf

/-- The last declaration of `name` whose value parses as an integer
(a later declaration overwrites an earlier one; an unparseable value leaves
the previous one in place). -/
def lastParsed (name : String) : List (String × String) → Option Int
  | [] => none
  | nv :: t =>
    match lastParsed name t with
    | some v => some v
    | none => if nv.1 == name then jsParseInt nv.2 else none

/-- The last declared value text of `name`. -/
def lastValue (name : String) : List (String × String) → Option String
  | [] => none
  | nv :: t =>
    match lastValue name t with
    | some v => some v
    | none => if nv.1 == name then some nv.2 else none

theorem constantsStep_eq (p : PacketInfo) (child : SNode) :
    constantsStep p child =
      match constDeclOf child with
      | some nv => applyConstant p nv.1 nv.2
      | none => p := by
  unfold constantsStep constDeclOf
  cases h1 : (child.ty == "field_declaration")
  · simp [h1]
  · cases h2 : (strContains (modifiersText child) "static" &&
        strContains (modifiersText child) "final")
    · simp [h1, h2]
    · cases h3 : child.children.find? (fun c => c.ty == "variable_declarator")
      · simp [h1, h2, h3]
      case _ declarator =>
        cases h4 : (nodeText (declarator.field "name") != "" &&
            nodeText (declarator.field "value") != "") <;>
          simp [h1, h2, h3, h4]

theorem foldl_constantsStep (l : List SNode) (p : PacketInfo) :
    l.foldl constantsStep p =
      (l.filterMap constDeclOf).foldl
        (fun p nv => applyConstant p nv.1 nv.2) p := by
  induction l generalizing p with
  | nil => rfl
  | cons c t ih =>
    rw [List.foldl_cons, constantsStep_eq]
    cases h : constDeclOf c
    · rw [List.filterMap_cons_none h]
      exact ih p
    · rw [List.filterMap_cons_some h, List.foldl_cons]
      exact ih _

theorem applyConstant_packetId (p : PacketInfo) (n v : String) :
    (applyConstant p n v).packetId =
      match (if n == "PACKET_ID" then jsParseInt v else none) with
      | some w => some w
      | none => p.packetId := by
  unfold applyConstant
  by_cases h1 : n = "IS_COMPRESSED"
  · subst h1
    simp
  · rw [if_neg (by simpa using h1)]
    cases hp : jsParseInt v
    · cases hn : (n == "PACKET_ID") <;> simp [hn, hp]
    · by_cases h2 : n = "PACKET_ID"
      · subst h2
        simp [hp]
      · have hb : (n == "PACKET_ID") = false := by simpa using h2
        simp only [hb, Bool.false_eq_true, if_false, hp]
        split <;> first | rfl | (split <;> first | rfl | (split <;>
          first | rfl | (split <;> first | rfl | (split <;> rfl))))

theorem applyConstant_isCompressed (p : PacketInfo) (n v : String) :
    (applyConstant p n v).isCompressed =
      match (if n == "IS_COMPRESSED" then some v else none) with
      | some w => (w == "true")
      | none => p.isCompressed := by
  unfold applyConstant
  by_cases h1 : n = "IS_COMPRESSED"
  · subst h1
    simp
  · have hb : (n == "IS_COMPRESSED") = false := by simpa using h1
    simp only [hb, Bool.false_eq_true, if_false]
    cases hp : jsParseInt v
    · rfl
    · split <;> first | rfl | (split <;> first | rfl | (split <;>
        first | rfl | (split <;> first | rfl | (split <;> first | rfl |
          (split <;> first | rfl | (split <;> rfl))))))

theorem applyConstant_nullableBitFieldSize (p : PacketInfo) (n v : String) :
    (applyConstant p n v).nullableBitFieldSize =
      match (if n == "NULLABLE_BIT_FIELD_SIZE" then jsParseInt v else none)
        with
      | some w => w
      | none => p.nullableBitFieldSize := by
  unfold applyConstant
  by_cases h1 : n = "IS_COMPRESSED"
  · subst h1
    simp
  · rw [if_neg (by simpa using h1)]
    cases hp : jsParseInt v
    · cases hn : (n == "NULLABLE_BIT_FIELD_SIZE") <;> simp [hn, hp]
    · by_cases h2 : n = "NULLABLE_BIT_FIELD_SIZE"
      · subst h2
        simp [hp]
      · have hb : (n == "NULLABLE_BIT_FIELD_SIZE") = false := by
          simpa using h2
        simp only [hb, Bool.false_eq_true, if_false, hp]
        split <;> first | rfl | (split <;> first | rfl | (split <;>
          first | rfl | (split <;> first | rfl | (split <;> rfl))))

theorem applyConstant_fixedBlockSize (p : PacketInfo) (n v : String) :
    (applyConstant p n v).fixedBlockSize =
      match (if n == "FIXED_BLOCK_SIZE" then jsParseInt v else none) with
      | some w => w
      | none => p.fixedBlockSize := by
  unfold applyConstant
  by_cases h1 : n = "IS_COMPRESSED"
  · subst h1
    simp
  · rw [if_neg (by simpa using h1)]
    cases hp : jsParseInt v
    · cases hn : (n == "FIXED_BLOCK_SIZE") <;> simp [hn, hp]
    · by_cases h2 : n = "FIXED_BLOCK_SIZE"
      · subst h2
        simp [hp]
      · have hb : (n == "FIXED_BLOCK_SIZE") = false := by simpa using h2
        simp only [hb, Bool.false_eq_true, if_false, hp]
        split <;> first | rfl | (split <;> first | rfl | (split <;>
          first | rfl | (split <;> first | rfl | (split <;> rfl))))

theorem applyConstant_variableFieldCount (p : PacketInfo) (n v : String) :
    (applyConstant p n v).variableFieldCount =
      match (if n == "VARIABLE_FIELD_COUNT" then jsParseInt v else none) with
      | some w => w
      | none => p.variableFieldCount := by
  unfold applyConstant
  by_cases h1 : n = "IS_COMPRESSED"
  · subst h1
    simp
  · rw [if_neg (by simpa using h1)]
    cases hp : jsParseInt v
    · cases hn : (n == "VARIABLE_FIELD_COUNT") <;> simp [hn, hp]
    · by_cases h2 : n = "VARIABLE_FIELD_COUNT"
      · subst h2
        simp [hp]
      · have hb : (n == "VARIABLE_FIELD_COUNT") = false := by simpa using h2
        simp only [hb, Bool.false_eq_true, if_false, hp]
        split <;> first | rfl | (split <;> first | rfl | (split <;>
          first | rfl | (split <;> first | rfl | (split <;> rfl))))

theorem applyConstant_variableBlockStart (p : PacketInfo) (n v : String) :
    (applyConstant p n v).variableBlockStart =
      match (if n == "VARIABLE_BLOCK_START" then jsParseInt v else none) with
      | some w => w
      | none => p.variableBlockStart := by
  unfold applyConstant
  by_cases h1 : n = "IS_COMPRESSED"
  · subst h1
    simp
  · rw [if_neg (by simpa using h1)]
    cases hp : jsParseInt v
    · cases hn : (n == "VARIABLE_BLOCK_START") <;> simp [hn, hp]
    · by_cases h2 : n = "VARIABLE_BLOCK_START"
      · subst h2
        simp [hp]
      · have hb : (n == "VARIABLE_BLOCK_START") = false := by simpa using h2
        simp only [hb, Bool.false_eq_true, if_false, hp]
        split <;> first | rfl | (split <;> first | rfl | (split <;>
          first | rfl | (split <;> first | rfl | (split <;> rfl))))

theorem applyConstant_maxSize (p : PacketInfo) (n v : String) :
    (applyConstant p n v).maxSize =
      match (if n == "MAX_SIZE" then jsParseInt v else none) with
      | some w => w
      | none => p.maxSize := by
  unfold applyConstant
  by_cases h1 : n = "IS_COMPRESSED"
  · subst h1
    simp
  · rw [if_neg (by simpa using h1)]
    cases hp : jsParseInt v
    · cases hn : (n == "MAX_SIZE") <;> simp [hn, hp]
    · by_cases h2 : n = "MAX_SIZE"
      · subst h2
        simp [hp]
      · have hb : (n == "MAX_SIZE") = false := by simpa using h2
        simp only [hb, Bool.false_eq_true, if_false, hp]
        split <;> first | rfl | (split <;> first | rfl | (split <;>
          first | rfl | (split <;> first | rfl | (split <;> rfl))))

theorem fold_packetId (ds : List (String × String)) (p : PacketInfo) :
    (ds.foldl (fun p nv => applyConstant p nv.1 nv.2) p).packetId =
      match lastParsed "PACKET_ID" ds with
      | some v => some v
      | none => p.packetId := by
  induction ds generalizing p with
  | nil => rfl
  | cons nv t ih =>
    rw [List.foldl_cons, ih]
    show _ = match lastParsed "PACKET_ID" (nv :: t) with
      | some v => some v
      | none => p.packetId
    rw [lastParsed]
    cases hl : lastParsed "PACKET_ID" t
    · simp only [hl]
      exact applyConstant_packetId p nv.1 nv.2
    · simp [hl]

theorem fold_isCompressed (ds : List (String × String)) (p : PacketInfo) :
    (ds.foldl (fun p nv => applyConstant p nv.1 nv.2) p).isCompressed =
      match lastValue "IS_COMPRESSED" ds with
      | some v => (v == "true")
      | none => p.isCompressed := by
  induction ds generalizing p with
  | nil => rfl
  | cons nv t ih =>
    rw [List.foldl_cons, ih]
    show _ = match lastValue "IS_COMPRESSED" (nv :: t) with
      | some v => (v == "true")
      | none => p.isCompressed
    rw [lastValue]
    cases hl : lastValue "IS_COMPRESSED" t
    · simp only [hl]
      rw [applyConstant_isCompressed]
    · simp [hl]

theorem fold_nullableBitFieldSize (ds : List (String × String))
    (p : PacketInfo) :
    (ds.foldl (fun p nv => applyConstant p nv.1 nv.2)
      p).nullableBitFieldSize =
      match lastParsed "NULLABLE_BIT_FIELD_SIZE" ds with
      | some v => v
      | none => p.nullableBitFieldSize := by
  induction ds generalizing p with
  | nil => rfl
  | cons nv t ih =>
    rw [List.foldl_cons, ih]
    show _ = match lastParsed "NULLABLE_BIT_FIELD_SIZE" (nv :: t) with
      | some v => v
      | none => p.nullableBitFieldSize
    rw [lastParsed]
    cases hl : lastParsed "NULLABLE_BIT_FIELD_SIZE" t
    · simp only [hl]
      exact applyConstant_nullableBitFieldSize p nv.1 nv.2
    · simp [hl]

theorem fold_fixedBlockSize (ds : List (String × String)) (p : PacketInfo) :
    (ds.foldl (fun p nv => applyConstant p nv.1 nv.2) p).fixedBlockSize =
      match lastParsed "FIXED_BLOCK_SIZE" ds with
      | some v => v
      | none => p.fixedBlockSize := by
  induction ds generalizing p with
  | nil => rfl
  | cons nv t ih =>
    rw [List.foldl_cons, ih]
    show _ = match lastParsed "FIXED_BLOCK_SIZE" (nv :: t) with
      | some v => v
      | none => p.fixedBlockSize
    rw [lastParsed]
    cases hl : lastParsed "FIXED_BLOCK_SIZE" t
    · simp only [hl]
      exact applyConstant_fixedBlockSize p nv.1 nv.2
    · simp [hl]

theorem fold_variableFieldCount (ds : List (String × String))
    (p : PacketInfo) :
    (ds.foldl (fun p nv => applyConstant p nv.1 nv.2) p).variableFieldCount =
      match lastParsed "VARIABLE_FIELD_COUNT" ds with
      | some v => v
      | none => p.variableFieldCount := by
  induction ds generalizing p with
  | nil => rfl
  | cons nv t ih =>
    rw [List.foldl_cons, ih]
    show _ = match lastParsed "VARIABLE_FIELD_COUNT" (nv :: t) with
      | some v => v
      | none => p.variableFieldCount
    rw [lastParsed]
    cases hl : lastParsed "VARIABLE_FIELD_COUNT" t
    · simp only [hl]
      exact applyConstant_variableFieldCount p nv.1 nv.2
    · simp [hl]

theorem fold_variableBlockStart (ds : List (String × String))
    (p : PacketInfo) :
    (ds.foldl (fun p nv => applyConstant p nv.1 nv.2) p).variableBlockStart =
      match lastParsed "VARIABLE_BLOCK_START" ds with
      | some v => v
      | none => p.variableBlockStart := by
  induction ds generalizing p with
  | nil => rfl
  | cons nv t ih =>
    rw [List.foldl_cons, ih]
    show _ = match lastParsed "VARIABLE_BLOCK_START" (nv :: t) with
      | some v => v
      | none => p.variableBlockStart
    rw [lastParsed]
    cases hl : lastParsed "VARIABLE_BLOCK_START" t
    · simp only [hl]
      exact applyConstant_variableBlockStart p nv.1 nv.2
    · simp [hl]

theorem fold_maxSize (ds : List (String × String)) (p : PacketInfo) :
    (ds.foldl (fun p nv => applyConstant p nv.1 nv.2) p).maxSize =
      match lastParsed "MAX_SIZE" ds with
      | some v => v
      | none => p.maxSize := by
  induction ds generalizing p with
  | nil => rfl
  | cons nv t ih =>
    rw [List.foldl_cons, ih]
    show _ = match lastParsed "MAX_SIZE" (nv :: t) with
      | some v => v
      | none => p.maxSize
    rw [lastParsed]
    cases hl : lastParsed "MAX_SIZE" t
    · simp only [hl]
      exact applyConstant_maxSize p nv.1 nv.2
    · simp [hl]

theorem extractLayout_shape (node : SNode) (p : PacketInfo) :
    extractLayout node p = p ∨
    ∃ c, extractLayout node p = { p with deserializeContext := some c } := by
  unfold extractLayout
  split
  · exact Or.inl rfl
  · split
    · exact Or.inl rfl
    · exact Or.inr ⟨_, rfl⟩

/-- The initial `PacketInfo` record of `extractPacketInfo`, before constant
extraction. -/
def initPacket (node : SNode) (content category : String) : PacketInfo :=
  { name :=
      if nodeText (node.field "name") == "" then "Unknown"
      else nodeText (node.field "name")
    pkg := extractPackage content
    category
    isCompressed := false
    nullableBitFieldSize := 0
    fixedBlockSize := 0
    variableFieldCount := 0
    variableBlockStart := 0
    maxSize := 0
    fields := []
    imports := extractImports content
    isEnum := false
    isDataClass := false }

theorem extractPacketInfo_asFold (node body : SNode)
    (content category : String) (hbody : node.field "body" = some body) :
    ∃ flds dc,
      extractPacketInfo node content category =
        { (constDecls body).foldl (fun p nv => applyConstant p nv.1 nv.2)
            (initPacket node content category) with
          fields := flds, deserializeContext := dc } := by
  have hconst : extractConstants node (initPacket node content category) =
      (constDecls body).foldl (fun p nv => applyConstant p nv.1 nv.2)
        (initPacket node content category) := by
    unfold extractConstants
    rw [hbody]
    exact foldl_constantsStep _ _
  have hrep : extractPacketInfo node content category =
      extractLayout node
        { extractConstants node (initPacket node content category) with
          fields := extractFields node } := rfl
  rcases extractLayout_shape node
      { extractConstants node (initPacket node content category) with
        fields := extractFields node } with hl | ⟨c, hl⟩
  · refine ⟨extractFields node,
      (extractConstants node
        (initPacket node content category)).deserializeContext, ?_⟩
    rw [hrep, hl, hconst]
  · refine ⟨extractFields node, some c, ?_⟩
    rw [hrep, hl, hconst]

/-- C6 as amended: each of the six constants other than the message
identifier equals the parsed literal of the (last) matching static-final
declaration and defaults to zero (`false` for the compression flag) when
absent; the message identifier instead equals the parsed literal when one
exists and is *absent* (`undefined`), not zero, otherwise. -/
theorem extractPacketInfo_constants (node body : SNode)
    (content category : String) (hbody : node.field "body" = some body) :
    (extractPacketInfo node content category).packetId =
      lastParsed "PACKET_ID" (constDecls body) ∧
    (extractPacketInfo node content category).isCompressed =
      (match lastValue "IS_COMPRESSED" (constDecls body) with
       | some v => (v == "true")
       | none => false) ∧
    (extractPacketInfo node content category).nullableBitFieldSize =
      (match lastParsed "NULLABLE_BIT_FIELD_SIZE" (constDecls body) with
       | some v => v
       | none => 0) ∧
    (extractPacketInfo node content category).fixedBlockSize =
      (match lastParsed "FIXED_BLOCK_SIZE" (constDecls body) with
       | some v => v
       | none => 0) ∧
    (extractPacketInfo node content category).variableFieldCount =
      (match lastParsed "VARIABLE_FIELD_COUNT" (constDecls body) with
       | some v => v
       | none => 0) ∧
    (extractPacketInfo node content category).variableBlockStart =
      (match lastParsed "VARIABLE_BLOCK_START" (constDecls body) with
       | some v => v
       | none => 0) ∧
    (extractPacketInfo node content category).maxSize =
      (match lastParsed "MAX_SIZE" (constDecls body) with
       | some v => v
       | none => 0) := by
  obtain ⟨flds, dc, hrec⟩ :=
    extractPacketInfo_asFold node body content category hbody
  rw [hrec]
  refine ⟨?_, ?_, ?_, ?_, ?_, ?_, ?_⟩
  · show ((constDecls body).foldl (fun p nv => applyConstant p nv.1 nv.2)
      (initPacket node content category)).packetId = _
    rw [fold_packetId]
    cases lastParsed "PACKET_ID" (constDecls body) <;> rfl
  · show ((constDecls body).foldl (fun p nv => applyConstant p nv.1 nv.2)
      (initPacket node content category)).isCompressed = _
    rw [fold_isCompressed]
    cases lastValue "IS_COMPRESSED" (constDecls body) <;> rfl
  · show ((constDecls body).foldl (fun p nv => applyConstant p nv.1 nv.2)
      (initPacket node content category)).nullableBitFieldSize = _
    rw [fold_nullableBitFieldSize]
    cases lastParsed _ (constDecls body) <;> rfl
  · show ((constDecls body).foldl (fun p nv => applyConstant p nv.1 nv.2)
      (initPacket node content category)).fixedBlockSize = _
    rw [fold_fixedBlockSize]
    cases lastParsed _ (constDecls body) <;> rfl
  · show ((constDecls body).foldl (fun p nv => applyConstant p nv.1 nv.2)
      (initPacket node content category)).variableFieldCount = _
    rw [fold_variableFieldCount]
    cases lastParsed _ (constDecls body) <;> rfl
  · show ((constDecls body).foldl (fun p nv => applyConstant p nv.1 nv.2)
      (initPacket node content category)).variableBlockStart = _
    rw [fold_variableBlockStart]
    cases lastParsed _ (constDecls body) <;> rfl
  · show ((constDecls body).foldl (fun p nv => applyConstant p nv.1 nv.2)
      (initPacket node content category)).maxSize = _
    rw [fold_maxSize]
    cases lastParsed _ (constDecls body) <;> rfl

/-- A class declaration with an empty body (no constants declared). -/
def emptyClassNode : SNode :=
  .node "class_declaration" ""
    [("name", .node "identifier" "E" [] []),
     ("body", .node "class_body" "" [] [])] []

/-- Counterexample to C6 as stated: with no `PACKET_ID` declaration the
message identifier is **absent** (`undefined`), not zero, while the other
six constants do default to zero / `false`. -/
theorem packetId_default_counterexample :
    (extractPacketInfo emptyClassNode "" "cat").packetId = none ∧
    (extractPacketInfo emptyClassNode "" "cat").packetId ≠ some 0 ∧
    (extractPacketInfo emptyClassNode "" "cat").isCompressed = false ∧
    (extractPacketInfo emptyClassNode "" "cat").nullableBitFieldSize = 0 ∧
    (extractPacketInfo emptyClassNode "" "cat").fixedBlockSize = 0 ∧
    (extractPacketInfo emptyClassNode "" "cat").variableFieldCount = 0 ∧
    (extractPacketInfo emptyClassNode "" "cat").variableBlockStart = 0 ∧
    (extractPacketInfo emptyClassNode "" "cat").maxSize = 0 := by
  refine ⟨by decide, by decide, by decide, by decide, by decide, by decide,
    by decide, by decide⟩

/-- A class body declaring `PACKET_ID = 3` and `MAX_SIZE = 64`. -/
def constClassBody : SNode :=
  .node "class_body" "" []
    [.node "field_declaration" "public static final int PACKET_ID = 3;" []
       [.node "modifiers" "public static final" [] [],
        .node "variable_declarator" ""
          [("name", .node "identifier" "PACKET_ID" [] []),
           ("value", .node "decimal_integer_literal" "3" [] [])] []],
     .node "field_declaration" "public static final int MAX_SIZE = 64;" []
       [.node "modifiers" "public static final" [] [],
        .node "variable_declarator" ""
          [("name", .node "identifier" "MAX_SIZE" [] []),
           ("value", .node "decimal_integer_literal" "64" [] [])] []]]

/-- A class declaration wrapping `constClassBody`. -/
def constClassNode : SNode :=
  .node "class_declaration" ""
    [("name", .node "identifier" "C" [] []),
     ("body", constClassBody)] []

/-- Witness for C6 (amended): declared constants are parsed, the rest
default. -/
theorem extractPacketInfo_constants_witness :
    (extractPacketInfo constClassNode "" "cat").packetId =
      lastParsed "PACKET_ID" (constDecls constClassBody) ∧
    (extractPacketInfo constClassNode "" "cat").packetId = some 3 ∧
    (extractPacketInfo constClassNode "" "cat").maxSize = 64 ∧
    (extractPacketInfo constClassNode "" "cat").fixedBlockSize = 0 ∧
    (extractPacketInfo constClassNode "" "cat").isCompressed = false :=
  ⟨(extractPacketInfo_constants constClassNode constClassBody "" "cat"
      rfl).1,
    by decide, by decide, by decide, by decide⟩

/-! ## Claim C8 -/

theorem mapGet_mapSet {α : Type} (m : List (String × α)) (k k' : String)
    (v : α) :
    mapGet (mapSet m k v) k' = if k' = k then some v else mapGet m k' := by
  by_cases h : k' = k
  · subst h
    rw [mapGet_mapSet_self, if_pos rfl]
  · rw [mapGet_mapSet_ne _ _ _ _ h, if_neg h]

theorem applyConstant_category (p : PacketInfo) (n v : String) :
    (applyConstant p n v).category = p.category := by
  unfold applyConstant
  split
  · rfl
  · split
    · rfl
    · split <;> first | rfl | (split <;> first | rfl | (split <;>
        first | rfl | (split <;> first | rfl | (split <;> first | rfl |
          (split <;> rfl)))))

theorem foldl_constantsStep_category (l : List SNode) (p : PacketInfo) :
    (l.foldl constantsStep p).category = p.category := by
  induction l generalizing p with
  | nil => rfl
  | cons c t ih =>
    rw [List.foldl_cons, constantsStep_eq]
    cases h : constDeclOf c
    · simp only [h]
      exact ih p
    · simp only [h]
      rw [ih]
      exact applyConstant_category _ _ _

theorem extractConstants_category (node : SNode) (p : PacketInfo) :
    (extractConstants node p).category = p.category := by
  unfold extractConstants
  split
  · rfl
  · exact foldl_constantsStep_category _ p

theorem extractPacketInfo_category (node : SNode) (content cat : String) :
    (extractPacketInfo node content cat).category = cat := by
  have hrep : extractPacketInfo node content cat =
      extractLayout node
        { extractConstants node (initPacket node content cat) with
          fields := extractFields node } := rfl
  rcases extractLayout_shape node
      { extractConstants node (initPacket node content cat) with
        fields := extractFields node } with hl | ⟨c, hl⟩ <;>
    rw [hrep, hl] <;>
    exact extractConstants_category node (initPacket node content cat)

theorem extractEnumInfo_category (node : SNode) (content cat rp : String)
    (ei : EnumInfo) (h : extractEnumInfo node content cat rp = some ei) :
    ei.category = cat := by
  cases hn : (nodeText (node.field "name") == "")
  · simp only [extractEnumInfo, hn, Bool.false_eq_true, if_false,
      Option.some.injEq] at h
    rw [← h]
  · simp only [extractEnumInfo, hn, if_true] at h
    exact absurd h (by simp)

theorem extractDataClassInfo_category (node : SNode)
    (content cat rp : String) (dc : DataClassInfo)
    (h : extractDataClassInfo node content cat rp = some dc) :
    dc.category = cat := by
  cases hn : (nodeText (node.field "name") == "")
  · simp only [extractDataClassInfo, hn, Bool.false_eq_true, if_false,
      Option.some.injEq] at h
    rw [← h]
  · simp only [extractDataClassInfo, hn, if_true] at h
    exact absurd h (by simp)

theorem parseEntityTree_category_inv (content relPath : String)
    (l : List SNode) :
    ∀ st : List (String × EnumInfo) × List (String × DataClassInfo),
      (∀ k ei, mapGet st.1 k = some ei →
        ei.category = entityCategory relPath) →
      (∀ k dc, mapGet st.2 k = some dc →
        dc.category = entityCategory relPath) →
      (∀ k ei, mapGet (l.foldl (fun st node =>
          if node.ty == "enum_declaration" then
            match extractEnumInfo node content (entityCategory relPath)
                relPath with
            | some ei => (mapSet st.1 ei.name ei, st.2)
            | none => st
          else if node.ty == "class_declaration" then
            match extractDataClassInfo node content (entityCategory relPath)
                relPath with
            | some dc =>
              if !(strContains dc.name "Packet") then
                (st.1, mapSet st.2 dc.name dc)
              else st
            | none => st
          else st) st).1 k = some ei →
        ei.category = entityCategory relPath) ∧
      (∀ k dc, mapGet (l.foldl (fun st node =>
          if node.ty == "enum_declaration" then
            match extractEnumInfo node content (entityCategory relPath)
                relPath with
            | some ei => (mapSet st.1 ei.name ei, st.2)
            | none => st
          else if node.ty == "class_declaration" then
            match extractDataClassInfo node content (entityCategory relPath)
                relPath with
            | some dc =>
              if !(strContains dc.name "Packet") then
                (st.1, mapSet st.2 dc.name dc)
              else st
            | none => st
          else st) st).2 k = some dc →
        dc.category = entityCategory relPath) := by
  induction l with
  | nil => exact fun st h1 h2 => ⟨h1, h2⟩
  | cons node t ih =>
    intro st h1 h2
    rw [List.foldl_cons]
    apply ih
    · intro k ei hk
      split at hk
      · split at hk
        case _ ei2 hei2 =>
          rw [mapGet_mapSet] at hk
          split at hk
          · rw [Option.some.injEq] at hk
            rw [← hk]
            exact extractEnumInfo_category _ _ _ _ _ hei2
          · exact h1 k ei hk
        case _ => exact h1 k ei hk
      · split at hk
        · split at hk
          · split at hk
            · exact h1 k ei hk
            · exact h1 k ei hk
          · exact h1 k ei hk
        · exact h1 k ei hk
    · intro k dc hk
      split at hk
      · split at hk
        · exact h2 k dc hk
        · exact h2 k dc hk
      · split at hk
        · split at hk
          case _ dc2 hdc2 =>
            split at hk
            · rw [mapGet_mapSet] at hk
              split at hk
              · rw [Option.some.injEq] at hk
                rw [← hk]
                exact extractDataClassInfo_category _ _ _ _ _ hdc2
              · exact h2 k dc hk
            · exact h2 k dc hk
          case _ => exact h2 k dc hk
        · exact h2 k dc hk

/-- C8 as amended: every extracted entity's category is the relative
directory path with path separators normalized to `/` (packets relative to
the packets sub-directory), with fixed default names at the top level —
kept in the original case, with no lower-casing. -/
theorem category_spec (root : SNode) (content relPath : String) :
    (∀ k ei, mapGet (parseEntityTree root content relPath ([], [])).1 k =
        some ei → ei.category = entityCategory relPath) ∧
    (∀ k dc, mapGet (parseEntityTree root content relPath ([], [])).2 k =
        some dc → dc.category = entityCategory relPath) ∧
    (∀ p, parsePacketTree root content relPath = some p →
      p.category = packetCategory relPath) ∧
    entityCategory "" = "root" ∧
    packetCategory "" = "uncategorized" ∧
    (normalizeSep relPath ≠ "" →
      entityCategory relPath = normalizeSep relPath ∧
      packetCategory relPath = normalizeSep relPath) := by
  have hent := parseEntityTree_category_inv content relPath root.preorder
    ([], []) (fun k ei h => absurd h (by simp [mapGet]))
    (fun k dc h => absurd h (by simp [mapGet]))
  refine ⟨hent.1, hent.2, ?_, rfl, rfl, ?_⟩
  · have hfold : ∀ (l : List SNode) (acc : Option PacketInfo),
        (∀ p, acc = some p → p.category = packetCategory relPath) →
        ∀ p, (l.foldl (fun acc node =>
            if node.ty == "class_declaration" then
              if nodeText (node.field "name") != "" then
                some (extractPacketInfo node content
                  (packetCategory relPath))
              else acc
            else acc) acc) = some p →
          p.category = packetCategory relPath := by
      intro l
      induction l with
      | nil => exact fun acc h p hp => h p hp
      | cons node t ih =>
        intro acc h p
        rw [List.foldl_cons]
        apply ih
        intro q hq
        split at hq
        · split at hq
          · rw [Option.some.injEq] at hq
            rw [← hq]
            exact extractPacketInfo_category _ _ _
          · exact h q hq
        · exact h q hq
    exact hfold root.preorder none (fun p hp => absurd hp (by simp))
  · intro h
    unfold entityCategory packetCategory
    rw [if_neg (by simpa using h), if_neg (by simpa using h)]
    exact ⟨rfl, rfl⟩

/-- Counterexample to C8 as stated: an upper-case directory name is kept
verbatim in the extracted entity's category, not lower-cased. -/
theorem category_lowercase_counterexample :
    (parseEntityTree enumNodeSample "" "AUTH" ([], [])).1 =
      [("Color",
        { name := "Color", pkg := "", category := "AUTH",
          sourcePath := "AUTH",
          values := [⟨"RED", 0⟩, ⟨"GREEN", 7⟩, ⟨"BLUE", 2⟩] })] ∧
    entityCategory "AUTH" = "AUTH" ∧
    "AUTH" ≠ "auth" := by
  refine ⟨by decide, by decide, by decide⟩

/-- Witness for C8 (amended) at a two-level path with a backslash
separator. -/
theorem category_spec_witness :
    (∀ k ei,
      mapGet (parseEntityTree enumNodeSample "" "a\\b" ([], [])).1 k =
        some ei → ei.category = entityCategory "a\\b") ∧
    normalizeSep "a\\b" ≠ "" ∧
    entityCategory "a\\b" = "a/b" :=
  ⟨(category_spec enumNodeSample "" "a\\b").1, by decide,
    ((category_spec enumNodeSample "" "a\\b").2.2.2.2.2
      (by decide)).1.trans (by decide)⟩

/-! ## Claim C9 -/

theorem mapHas_mapSet {α : Type} (m : List (String × α)) (k k2 : String)
    (v : α) (h : mapHas m k = true) : mapHas (mapSet m k2 v) k = true := by
  unfold mapSet
  split
  · rw [mapHas_iff] at h ⊢
    obtain ⟨kv, hkv, hk⟩ := h
    by_cases he : kv.1 = k2
    · refine ⟨(k2, v), ?_, ?_⟩
      · exact List.mem_map.mpr ⟨kv, hkv, by simp [he]⟩
      · rw [← hk, he]
    · refine ⟨kv, ?_, hk⟩
      exact List.mem_map.mpr ⟨kv, hkv, by simp [he]⟩
  · rw [mapHas_iff] at h ⊢
    obtain ⟨kv, hkv, hk⟩ := h
    exact ⟨kv, List.mem_append_left _ hkv, hk⟩

theorem parseEnumsTree_step_preserves (content relPath : String)
    (m : List (String × EnumInfo)) (node : SNode) (k : String)
    (h : mapHas m k = true) :
    mapGet ((fun m node =>
      if node.ty == "enum_declaration" then
        match extractEnumInfo node content (entityCategory relPath)
            relPath with
        | some ei => if !(mapHas m ei.name) then mapSet m ei.name ei else m
        | none => m
      else m) m node) k = mapGet m k ∧
    mapHas ((fun m node =>
      if node.ty == "enum_declaration" then
        match extractEnumInfo node content (entityCategory relPath)
            relPath with
        | some ei => if !(mapHas m ei.name) then mapSet m ei.name ei else m
        | none => m
      else m) m node) k = true := by
  simp only []
  split
  · split
    case _ ei hei =>
      split
      case isTrue hnew =>
        have hne : k ≠ ei.name := by
          intro hk
          rw [hk] at h
          simp [h] at hnew
        exact ⟨mapGet_mapSet_ne _ _ _ _ hne, mapHas_mapSet _ _ _ _ h⟩
      case isFalse => exact ⟨rfl, h⟩
    case _ => exact ⟨rfl, h⟩
  · exact ⟨rfl, h⟩

/-- C9: the secondary enum pass over the packets directory never overwrites
an enum name already registered: lookups of pre-existing names are
unchanged. -/
theorem parseEnumsTree_preserves (root : SNode) (content relPath : String)
    (enums : List (String × EnumInfo)) (k : String)
    (h : mapHas enums k = true) :
    mapGet (parseEnumsTree root content relPath enums) k =
      mapGet enums k := by
  unfold parseEnumsTree
  have hfold : ∀ (l : List SNode) (m : List (String × EnumInfo)),
      mapHas m k = true →
      mapGet (l.foldl (fun m node =>
        if node.ty == "enum_declaration" then
          match extractEnumInfo node content (entityCategory relPath)
              relPath with
          | some ei =>
            if !(mapHas m ei.name) then mapSet m ei.name ei else m
          | none => m
        else m) m) k = mapGet m k := by
    intro l
    induction l with
    | nil => exact fun m _ => rfl
    | cons node t ih =>
      intro m hm
      rw [List.foldl_cons]
      have hstep := parseEnumsTree_step_preserves content relPath m node k hm
      rw [ih _ hstep.2]
      exact hstep.1
  exact hfold root.preorder enums h

/-- A pre-registered enum entry named `Color` that differs from the one in
`enumNodeSample`. -/
def colorOld : EnumInfo :=
  { name := "Color", pkg := "old.pkg", category := "old", sourcePath := "o",
    values := [⟨"RED", 5⟩] }

/-- Witness for C9: re-scanning a file declaring `Color` leaves the
registered `Color` untouched. -/
theorem parseEnumsTree_preserves_witness :
    mapHas [("Color", colorOld)] "Color" = true ∧
    mapGet (parseEnumsTree enumNodeSample "" "rp" [("Color", colorOld)])
      "Color" = mapGet [("Color", colorOld)] "Color" ∧
    mapGet (parseEnumsTree enumNodeSample "" "rp" [("Color", colorOld)])
      "Color" = some colorOld :=
  ⟨by decide,
    parseEnumsTree_preserves enumNodeSample "" "rp" [("Color", colorOld)]
      "Color" (by decide),
    (parseEnumsTree_preserves enumNodeSample "" "rp" [("Color", colorOld)]
      "Color" (by decide)).trans (by decide)⟩

/-! ## Claim C10 -/

theorem parsePacketTree_foldl_last (content cat : String) :
    ∀ (l : List SNode) (acc : Option PacketInfo),
      (∀ n ∈ l, n.ty == "class_declaration" →
        nodeText (n.field "name") != "") →
      (l.foldl (fun acc node =>
        if node.ty == "class_declaration" then
          if nodeText (node.field "name") != "" then
            some (extractPacketInfo node content cat)
          else acc
        else acc) acc) =
      (match (l.filter (fun n => n.ty == "class_declaration")).getLast? with
       | some n => some (extractPacketInfo n content cat)
       | none => acc)
  | [], acc, _ => rfl
  | n :: t, acc, hall => by
    rw [List.foldl_cons]
    cases hcls : (n.ty == "class_declaration")
    · rw [if_neg (by simp [hcls])]
      rw [@List.filter_cons_of_neg _
        (fun n => n.ty == "class_declaration") n t (by simp [hcls])]
      exact parsePacketTree_foldl_last content cat t acc
        (fun x hx => hall x (List.mem_cons_of_mem n hx))
    · have hname : nodeText (n.field "name") != "" :=
        hall n (List.mem_cons_self n t) hcls
      rw [if_pos rfl, if_pos hname]
      rw [@List.filter_cons_of_pos _
        (fun n => n.ty == "class_declaration") n t hcls]
      rw [parsePacketTree_foldl_last content cat t _
        (fun x hx => hall x (List.mem_cons_of_mem n hx))]
      cases hlast : (t.filter (fun n => n.ty == "class_declaration")).getLast?
      · rw [List.getLast?_eq_none_iff] at hlast
        rw [hlast]
        rfl
      case _ m =>
        cases hf : t.filter (fun n => n.ty == "class_declaration")
        · rw [hf] at hlast
          exact absurd hlast (by simp)
        case _ x xs =>
          rw [hf] at hlast
          rw [List.getLast?_cons_cons, hlast]

/-- C10: when a packet file holds several (named) class declarations,
`parsePacketFile` returns the `PacketInfo` of the *last* class declaration
in pre-order traversal — not necessarily the top-level one. -/
theorem parsePacketTree_last (root : SNode) (content relPath : String)
    (hall : root.preorder.all (fun n => !(n.ty == "class_declaration") ||
      nodeText (n.field "name") != "") = true)
    (hne : root.preorder.filter (fun n => n.ty == "class_declaration") ≠ []) :
    parsePacketTree root content relPath =
      some (extractPacketInfo
        ((root.preorder.filter
          (fun n => n.ty == "class_declaration")).getLast hne)
        content (packetCategory relPath)) := by
  unfold parsePacketTree
  have hall2 : ∀ n ∈ root.preorder, n.ty == "class_declaration" →
      nodeText (n.field "name") != "" := by
    intro n hn hcls
    rw [List.all_eq_true] at hall
    have := hall n hn
    simp only [hcls, Bool.not_true, Bool.false_or] at this
    exact this
  rw [parsePacketTree_foldl_last content (packetCategory relPath)
    root.preorder none hall2]
  rw [List.getLast?_eq_getLast _ hne]

/-- An inner (nested) class declaration named `Inner`. -/
def innerClassNode : SNode :=
  .node "class_declaration" ""
    [("name", .node "identifier" "Inner" [] []),
     ("body", .node "class_body" "" [] [])] []

/-- The class body of the outer class, containing the nested class. -/
def outerBody : SNode :=
  .node "class_body" "" [] [innerClassNode]

/-- An outer class declaration named `Outer` whose body holds `Inner`
(the body appears among the children, as in a tree-sitter tree). -/
def outerClassNode : SNode :=
  .node "class_declaration" ""
    [("name", .node "identifier" "Outer" [] []),
     ("body", outerBody)]
    [outerBody]

/-- Witness for C10: with `Outer` and nested `Inner`, the parse result is
the `PacketInfo` of `Inner`, the last class visited in pre-order. -/
theorem parsePacketTree_last_witness :
    (outerClassNode.preorder.all
      (fun n => !(n.ty == "class_declaration") ||
        nodeText (n.field "name") != "")) = true ∧
    (∃ h : outerClassNode.preorder.filter
        (fun n => n.ty == "class_declaration") ≠ [],
      parsePacketTree outerClassNode "" "cat" =
        some (extractPacketInfo
          ((outerClassNode.preorder.filter
            (fun n => n.ty == "class_declaration")).getLast h)
          "" (packetCategory "cat"))) ∧
    (parsePacketTree outerClassNode "" "cat").map PacketInfo.name =
      some "Inner" :=
  ⟨by decide,
    ⟨List.length_pos.mp (by decide),
      parsePacketTree_last outerClassNode "" "cat" (by decide)
        (List.length_pos.mp (by decide))⟩,
    by decide⟩

/-- Witness for C7 (amended) at the duplicate-bit response. -/
theorem normalizeLayout_nullBit_passthrough_witness :
    (normalizeLayout rawDupBits packetD).fields.map FieldLayoutInfo.nullBit =
      rawDupBits.fields.map RawFieldLayout.nullBit ∧
    (analyzePacketOpt inferDup packetD =
        some (normalizeLayout rawDupBits packetD) ∧
      ∃ raw, inferDup packetD = Except.ok (some raw) ∧
        normalizeLayout rawDupBits packetD = normalizeLayout raw packetD) :=
  ⟨(normalizeLayout_nullBit_passthrough inferDup packetD).1 rawDupBits,
    by decide,
    (normalizeLayout_nullBit_passthrough inferDup packetD).2
      (normalizeLayout rawDupBits packetD) (by decide)⟩

end HytaleProto
